import Mathlib

/-!
# Verification of the mux.js MPEG-TS → fragmented-MP4 transmuxer core

A shallow embedding of the pipeline stages of the mux.js fork under
verification: the transport-packet splitter, the transport parse stream
(PAT/PMT handling and the waiting-for-PMT queue), the elementary stream
(PES reassembly and header parsing), the video segment stream (keyframe
handling, GOP fusion and keyframe pulling) and the coalesce stream
(the cross-track barrier).  JavaScript numbers are modelled as `Nat`/`Int`,
byte buffers as `List Nat`, and the event-emitter output of each stage as an
explicit list of events returned next to the updated state.
-/

namespace MuxJs

/-! ## Bitwise arithmetic helpers

The PES header decoder assembles 33-bit timestamps with JavaScript bitwise
operators.  These lemmas let us convert the resulting `|||`/`<<<` expressions
over disjoint bit ranges into plain arithmetic. -/

theorem lor_eq_add_of_and_eq_zero (a b : Nat) (h : a &&& b = 0) : a ||| b = a + b := by
  induction a using Nat.strong_induction_on generalizing b with
  | _ a ih =>
    rcases Nat.eq_zero_or_pos a with ha | ha
    · simp [ha]
    · have hd : a / 2 &&& b / 2 = 0 := by
        rw [← Nat.and_div_two, h]
      have hdiv : a / 2 ||| b / 2 = a / 2 + b / 2 := ih (a / 2) (Nat.div_lt_self ha (by omega)) _ hd
      have hmod : ¬(a % 2 = 1 ∧ b % 2 = 1) := by
        intro hc
        have : (a &&& b) % 2 = 1 := Nat.and_mod_two_eq_one.mpr hc
        rw [h] at this
        omega
      have hor2 : (a ||| b) % 2 = 1 ↔ a % 2 = 1 ∨ b % 2 = 1 := Nat.or_mod_two_eq_one
      have hdv : (a ||| b) / 2 = a / 2 ||| b / 2 := Nat.or_div_two
      have e1 : a ||| b = 2 * ((a ||| b) / 2) + (a ||| b) % 2 := by omega
      have h2a : a % 2 = 0 ∨ a % 2 = 1 := Nat.mod_two_eq_zero_or_one a
      have h2b : b % 2 = 0 ∨ b % 2 = 1 := Nat.mod_two_eq_zero_or_one b
      have h2ab : (a ||| b) % 2 = 0 ∨ (a ||| b) % 2 = 1 := Nat.mod_two_eq_zero_or_one _
      rw [hdv, hdiv] at e1
      rcases h2a with h2a | h2a <;> rcases h2b with h2b | h2b
      · have : ¬((a ||| b) % 2 = 1) := by
          intro hc
          rcases hor2.mp hc with hl | hl <;> omega
        omega
      · have := hor2.mpr (Or.inr h2b)
        omega
      · have := hor2.mpr (Or.inl h2a)
        omega
      · exact absurd ⟨h2a, h2b⟩ hmod

theorem and_shiftLeft_eq_zero_of_lt (x y k : Nat) (h : y < 2 ^ k) : (x <<< k) &&& y = 0 := by
  apply Nat.eq_of_testBit_eq
  intro i
  simp only [Nat.testBit_and, Nat.testBit_shiftLeft, Nat.zero_testBit]
  by_cases hik : k ≤ i
  · have : y.testBit i = false := by
      apply Nat.testBit_lt_two_pow
      exact lt_of_lt_of_le h (Nat.pow_le_pow_right (by omega) hik)
    simp [this]
  · simp [hik]

/-- Splitting off a shifted field: when the low part fits under the shift,
JavaScript's `x << k | y` is plain addition `x * 2^k + y`. -/
theorem shiftLeft_lor_eq_add (x y k : Nat) (h : y < 2 ^ k) :
    (x <<< k) ||| y = x * 2 ^ k + y := by
  rw [lor_eq_add_of_and_eq_zero _ _ (and_shiftLeft_eq_zero_of_lt x y k h), Nat.shiftLeft_eq]

/-- An even value shifted left by `k` equals its half shifted left by `k + 1`. -/
theorem shiftLeft_of_even (x k : Nat) (h : x % 2 = 0) :
    x <<< k = (x / 2) <<< (k + 1) := by
  rw [Nat.shiftLeft_eq, Nat.shiftLeft_eq, pow_succ]
  have hx : 2 * (x / 2) = x := by omega
  calc x * 2 ^ k = 2 * (x / 2) * 2 ^ k := by rw [hx]
    _ = x / 2 * (2 ^ k * 2) := by ring

/-! ## TransportPacketStream (the 188-byte packet splitter)

From `src/lib/m2ts/m2ts.js`.  The stream keeps a residual buffer
(`buffer`/`bytesInBuffer`) between `push` calls; `push` scans
`residual ++ input` for pairs of sync bytes 188 positions apart and emits the
packets it certifies; `flush` emits the residual iff it is a whole sync-led
packet. -/

/-- Bytes of a JavaScript `Buffer`; values are below 256 for real buffers. -/
abbrev Byte := Nat

def MP2T_PACKET_LENGTH : Nat := 188

def SYNC_BYTE : Byte := 0x47

/-- State of `TransportPacketStream`: the residual bytes retained between
`push` calls (`buffer.subarray(0, bytesInBuffer)` in the source). -/
structure TPState where
  residual : List Byte
deriving Repr, DecidableEq

def TPState.initial : TPState := ⟨[]⟩

/-- The scanning loop of `TransportPacketStream.push`, expressed on the
remaining input (`everything.drop startIndex`): while a full packet plus its
trailing sync position is available, either certify a packet (sync bytes at
offsets 0 and 188) and jump 188 bytes, or slide one byte forward; returns the
emitted packets and the final residual. -/
def scanPackets (everything : List Byte) : List (List Byte) × List Byte :=
  if h : MP2T_PACKET_LENGTH < everything.length then
    if everything.getD 0 0 = SYNC_BYTE ∧ everything.getD MP2T_PACKET_LENGTH 0 = SYNC_BYTE then
      let rest := scanPackets (everything.drop MP2T_PACKET_LENGTH)
      (everything.take MP2T_PACKET_LENGTH :: rest.1, rest.2)
    else
      scanPackets (everything.drop 1)
  else
    ([], everything)
termination_by everything.length
decreasing_by
  · simp only [List.length_drop]
    have hM : MP2T_PACKET_LENGTH = 188 := rfl
    omega
  · simp only [List.length_drop]
    have hM : MP2T_PACKET_LENGTH = 188 := rfl
    omega

def TransportPacketStream.push (st : TPState) (bytes : List Byte) :
    TPState × List (List Byte) :=
  let r := scanPackets (st.residual ++ bytes)
  (⟨r.2⟩, r.1)

/-- `flush` emits the residual iff it is exactly one sync-led packet (the
`done` event carries no packet and is not part of the observed sequence). -/
def TransportPacketStream.flush (st : TPState) : TPState × List (List Byte) :=
  if st.residual.length = MP2T_PACKET_LENGTH ∧ st.residual.getD 0 0 = SYNC_BYTE then
    (⟨[]⟩, [st.residual])
  else
    (st, [])

/-- Packets observed from a `push A; push B; flush` run. -/
def packetsChunked (st : TPState) (A B : List Byte) : List (List Byte) :=
  let r1 := TransportPacketStream.push st A
  let r2 := TransportPacketStream.push r1.1 B
  let r3 := TransportPacketStream.flush r2.1
  r1.2 ++ r2.2 ++ r3.2

/-- Packets observed from a `push (A ++ B); flush` run. -/
def packetsWhole (st : TPState) (A B : List Byte) : List (List Byte) :=
  let r1 := TransportPacketStream.push st (A ++ B)
  let r2 := TransportPacketStream.flush r1.1
  r1.2 ++ r2.2

/-- The scan of a concatenation factors through the scan of the first part:
packets certified inside `xs` are exactly those certified first, and the scan
resumes on `residual ++ ys`. -/
theorem scanPackets_append (xs ys : List Byte) :
    scanPackets (xs ++ ys) =
      ((scanPackets xs).1 ++ (scanPackets ((scanPackets xs).2 ++ ys)).1,
        (scanPackets ((scanPackets xs).2 ++ ys)).2) := by
  have hM : MP2T_PACKET_LENGTH = 188 := rfl
  generalize hn : xs.length = n
  induction n using Nat.strong_induction_on generalizing xs with
  | _ n ih =>
    by_cases h : MP2T_PACKET_LENGTH < xs.length
    · have hxy : MP2T_PACKET_LENGTH < (xs ++ ys).length := by
        simp only [List.length_append]; omega
      have hg0 : (xs ++ ys).getD 0 0 = xs.getD 0 0 := by
        rw [List.getD_eq_getElem?_getD, List.getD_eq_getElem?_getD,
          List.getElem?_append_left (by omega)]
      have hg188 : (xs ++ ys).getD MP2T_PACKET_LENGTH 0 = xs.getD MP2T_PACKET_LENGTH 0 := by
        rw [List.getD_eq_getElem?_getD, List.getD_eq_getElem?_getD,
          List.getElem?_append_left (by omega)]
      by_cases hsync : xs.getD 0 0 = SYNC_BYTE ∧ xs.getD MP2T_PACKET_LENGTH 0 = SYNC_BYTE
      · have htake : (xs ++ ys).take MP2T_PACKET_LENGTH = xs.take MP2T_PACKET_LENGTH := by
          rw [List.take_append_eq_append_take, Nat.sub_eq_zero_of_le (le_of_lt h),
            List.take_zero, List.append_nil]
        have hdrop : (xs ++ ys).drop MP2T_PACKET_LENGTH = xs.drop MP2T_PACKET_LENGTH ++ ys := by
          rw [List.drop_append_eq_append_drop, Nat.sub_eq_zero_of_le (le_of_lt h)]
          simp
        have hrec := ih (xs.drop MP2T_PACKET_LENGTH).length
          (by rw [List.length_drop, ← hn]; omega) (xs.drop MP2T_PACKET_LENGTH) rfl
        rw [scanPackets, dif_pos hxy, if_pos (by rw [hg0, hg188]; exact hsync)]
        conv_rhs => rw [scanPackets, dif_pos h, if_pos hsync]
        simp only [hdrop, htake, hrec]
        simp
      · have hdrop1 : (xs ++ ys).drop 1 = xs.drop 1 ++ ys := by
          rw [List.drop_append_eq_append_drop, Nat.sub_eq_zero_of_le (by omega)]
          simp
        have hrec := ih (xs.drop 1).length
          (by rw [List.length_drop, ← hn]; omega) (xs.drop 1) rfl
        rw [scanPackets, dif_pos hxy, if_neg (by rw [hg0, hg188]; exact hsync)]
        conv_rhs => rw [scanPackets, dif_pos h, if_neg hsync]
        rw [hdrop1, hrec]
    · have h1 : scanPackets xs = ([], xs) := by
        rw [scanPackets, dif_neg h]
      rw [h1]
      simp

/-- C2: chunking is unobservable.  For every residual state and every
partition `A ++ B`, `push A; push B; flush` emits exactly the same packet
sequence, byte for byte, as `push (A ++ B); flush`.  -/
theorem transportPacketStream_boundary_preservation (st : TPState) (A B : List Byte) :
    packetsChunked st A B = packetsWhole st A B := by
  unfold packetsChunked packetsWhole TransportPacketStream.push
  have h := scanPackets_append (st.residual ++ A) B
  rw [List.append_assoc] at h
  simp [h]

/-! ## PES header parsing (`parsePes` in `ElementaryStream`)

From `src/lib/m2ts/m2ts.js`.  The JavaScript bitwise operators work on 32-bit
integers; for byte-valued inputs every intermediate stays below `2^31`, so the
`Nat` operators below coincide with the source.  Fields the source leaves
`undefined` on an early return are modelled with `Option`. -/

/-- The fields `parsePes` decorates the event object with. -/
structure PesParsed where
  data : List Byte
  packetLength : Option Nat
  dataAlignmentIndicator : Option Bool
  pts : Option Nat
  dts : Option Nat
deriving Repr, DecidableEq

/-- The 33-bit timestamp assembly of `parsePes`: a 31-bit value from the five
header bytes, multiplied by 4, plus the two remaining low bits. -/
def decodeTimestamp (b0 b1 b2 b3 b4 : Byte) : Nat :=
  ((b0 &&& 0x0E) <<< 27 |||
    (b1 &&& 0xFF) <<< 20 |||
    (b2 &&& 0xFE) <<< 12 |||
    (b3 &&& 0xFF) <<< 5 |||
    (b4 &&& 0xFE) >>> 3) * 4 +
  ((b4 &&& 0x06) >>> 1)

def parsePes (payload : List Byte) : PesParsed :=
  -- startPrefix = payload[0] << 16 | payload[1] << 8 | payload[2]
  if (payload.getD 0 0 <<< 16 ||| payload.getD 1 0 <<< 8 ||| payload.getD 2 0) ≠ 1 then
    { data := [], packetLength := none, dataAlignmentIndicator := none,
      pts := none, dts := none }
  else
    { data := payload.drop (9 + payload.getD 8 0),
      packetLength := some (6 + (payload.getD 4 0 <<< 8 ||| payload.getD 5 0)),
      dataAlignmentIndicator := some (payload.getD 6 0 &&& 0x04 ≠ 0),
      pts :=
        if payload.getD 7 0 &&& 0xC0 ≠ 0 then
          some (decodeTimestamp (payload.getD 9 0) (payload.getD 10 0)
            (payload.getD 11 0) (payload.getD 12 0) (payload.getD 13 0))
        else none,
      -- `pes.dts = pes.pts`, overwritten from bytes 14..18 when bit 6 is also set
      dts :=
        if payload.getD 7 0 &&& 0xC0 ≠ 0 then
          some (if payload.getD 7 0 &&& 0x40 ≠ 0 then
              decodeTimestamp (payload.getD 14 0) (payload.getD 15 0)
                (payload.getD 16 0) (payload.getD 17 0) (payload.getD 18 0)
            else
              decodeTimestamp (payload.getD 9 0) (payload.getD 10 0)
                (payload.getD 11 0) (payload.getD 12 0) (payload.getD 13 0))
        else none }

/-- The specification formula for the 33-bit timestamp: the mathematical value
`(b0 & 0x0E) << 29 | b1 << 22 | (b2 & 0xFE) << 14 | b3 << 7 | (b4 & 0xFE) >> 1`. -/
def specTimestamp (b0 b1 b2 b3 b4 : Byte) : Nat :=
  (b0 &&& 0x0E) <<< 29 ||| b1 <<< 22 ||| (b2 &&& 0xFE) <<< 14 ||| b3 <<< 7 |||
    (b4 &&& 0xFE) >>> 1

theorem and_even_mask_even {x m : Nat} (hm : m &&& 1 = 0) : (x &&& m) % 2 = 0 := by
  rw [← Nat.and_one_is_mod, Nat.and_assoc, hm, Nat.and_zero]

/-- Arithmetic form of the left-associated `|||` chain used by `parsePes`,
with shifts 27/20/12/5: for masked byte fields the bit ranges are disjoint. -/
theorem lor_chain_eq_add_27 {a b c d e : Nat}
    (ha : a ≤ 14) (hae : a % 2 = 0) (hb : b ≤ 255)
    (hc : c ≤ 254) (hce : c % 2 = 0) (hd : d ≤ 255) (he : e ≤ 254) :
    a <<< 27 ||| b <<< 20 ||| c <<< 12 ||| d <<< 5 ||| e >>> 3 =
      a / 2 * 2 ^ 28 + b * 2 ^ 20 + c / 2 * 2 ^ 13 + d * 2 ^ 5 + e / 8 := by
  have hes : e >>> 3 = e / 8 := by
    simp [Nat.shiftRight_eq_div_pow]
  rw [Nat.or_assoc, Nat.or_assoc, Nat.or_assoc, hes]
  rw [shiftLeft_lor_eq_add d (e / 8) 5 (by norm_num; omega)]
  rw [shiftLeft_of_even c 12 hce,
    shiftLeft_lor_eq_add (c / 2) _ 13 (by norm_num; omega)]
  rw [shiftLeft_lor_eq_add b _ 20 (by norm_num; omega)]
  rw [shiftLeft_of_even a 27 hae,
    shiftLeft_lor_eq_add (a / 2) _ 28 (by norm_num; omega)]
  ring

/-- Arithmetic form of the specification's `|||` chain, with shifts
29/22/14/7. -/
theorem lor_chain_eq_add_29 {a b c d e : Nat}
    (ha : a ≤ 14) (hae : a % 2 = 0) (hb : b ≤ 255)
    (hc : c ≤ 254) (hce : c % 2 = 0) (hd : d ≤ 255) (he : e ≤ 254) :
    a <<< 29 ||| b <<< 22 ||| c <<< 14 ||| d <<< 7 ||| e >>> 1 =
      a / 2 * 2 ^ 30 + b * 2 ^ 22 + c / 2 * 2 ^ 15 + d * 2 ^ 7 + e / 2 := by
  have hes : e >>> 1 = e / 2 := by
    simp [Nat.shiftRight_eq_div_pow]
  rw [Nat.or_assoc, Nat.or_assoc, Nat.or_assoc, hes]
  rw [shiftLeft_lor_eq_add d (e / 2) 7 (by norm_num; omega)]
  rw [shiftLeft_of_even c 14 hce,
    shiftLeft_lor_eq_add (c / 2) _ 15 (by norm_num; omega)]
  rw [shiftLeft_lor_eq_add b _ 22 (by norm_num; omega)]
  rw [shiftLeft_of_even a 29 hae,
    shiftLeft_lor_eq_add (a / 2) _ 30 (by norm_num; omega)]
  ring

/-- The decoder computes exactly the specification's 33-bit field, and the
result always fits in 33 bits. -/
theorem decodeTimestamp_eq_specTimestamp (b0 b1 b2 b3 b4 : Nat)
    (h1 : b1 < 256) (h3 : b3 < 256) :
    decodeTimestamp b0 b1 b2 b3 b4 = specTimestamp b0 b1 b2 b3 b4 ∧
      specTimestamp b0 b1 b2 b3 b4 < 2 ^ 33 := by
  have hB : b1 &&& 0xFF = b1 := by
    have := Nat.and_pow_two_sub_one_eq_mod b1 8
    norm_num at this
    rw [this, Nat.mod_eq_of_lt h1]
  have hD : b3 &&& 0xFF = b3 := by
    have := Nat.and_pow_two_sub_one_eq_mod b3 8
    norm_num at this
    rw [this, Nat.mod_eq_of_lt h3]
  have ha : b0 &&& 0x0E ≤ 14 := Nat.and_le_right
  have hae : (b0 &&& 0x0E) % 2 = 0 := and_even_mask_even (by decide)
  have hc : b2 &&& 0xFE ≤ 254 := Nat.and_le_right
  have hce : (b2 &&& 0xFE) % 2 = 0 := and_even_mask_even (by decide)
  have he : b4 &&& 0xFE ≤ 254 := Nat.and_le_right
  have hee : (b4 &&& 0xFE) % 2 = 0 := and_even_mask_even (by decide)
  have hb : b1 ≤ 255 := Nat.lt_succ_iff.mp h1
  have hd : b3 ≤ 255 := Nat.lt_succ_iff.mp h3
  -- the low two bits: `b4 & 0x06` is the middle of `b4 & 0xFE`
  have hF : b4 &&& 0x06 = (b4 &&& 0xFE) % 8 := by
    have h8 : (b4 &&& 0xFE) % 8 = (b4 &&& 0xFE) &&& 7 := by
      have := Nat.and_pow_two_sub_one_eq_mod (b4 &&& 0xFE) 3
      norm_num at this
      rw [this]
    rw [h8, Nat.and_assoc]
    have h76 : (254 &&& 7 : Nat) = 6 := by decide
    rw [h76]
  have hchain27 := lor_chain_eq_add_27 ha hae hb hc hce hd he
  have hchain29 := lor_chain_eq_add_29 ha hae hb hc hce hd he
  unfold decodeTimestamp specTimestamp
  rw [hB, hD]
  rw [hchain27, hchain29, hF]
  have hf2 : ((b4 &&& 0xFE) % 8) >>> 1 = (b4 &&& 0xFE) % 8 / 2 := by
    rw [Nat.shiftRight_eq_div_pow, pow_one]
  rw [hf2]
  clear hchain27 hchain29 hf2
  exact ⟨by omega, by omega⟩

/-- C3: for a reassembled PES packet (start code `0x000001`) whose
`ptsDtsFlags` has bit 7 set, `parsePes` decodes `pts` as exactly the
mathematical 33-bit value assembled from payload bytes 9..13 across the marker
bits, with no loss for any value up to `2^33 - 1`; `dts` is decoded
analogously from bytes 14..18 when both flag bits are set, and otherwise
`dts = pts`. -/
theorem parsePes_timestamps (payload : List Byte)
    (hbytes : ∀ b ∈ payload, b < 256)
    (h0 : payload.getD 0 0 = 0) (h1 : payload.getD 1 0 = 0) (h2 : payload.getD 2 0 = 1)
    (hflag : (payload.getD 7 0).testBit 7 = true) :
    (parsePes payload).pts =
        some (specTimestamp (payload.getD 9 0) (payload.getD 10 0)
          (payload.getD 11 0) (payload.getD 12 0) (payload.getD 13 0)) ∧
      specTimestamp (payload.getD 9 0) (payload.getD 10 0)
          (payload.getD 11 0) (payload.getD 12 0) (payload.getD 13 0) < 2 ^ 33 ∧
      ((payload.getD 7 0).testBit 6 = true →
        (parsePes payload).dts =
          some (specTimestamp (payload.getD 14 0) (payload.getD 15 0)
            (payload.getD 16 0) (payload.getD 17 0) (payload.getD 18 0))) ∧
      ((payload.getD 7 0).testBit 6 = false →
        (parsePes payload).dts = (parsePes payload).pts) := by
  have hbyte : ∀ i, payload.getD i 0 < 256 := by
    intro i
    rw [List.getD_eq_getElem?_getD]
    cases hg : payload[i]? with
    | none => simp
    | some b =>
      have : b ∈ payload := List.getElem?_mem hg
      simpa using hbytes b this
  have hpre : payload.getD 0 0 <<< 16 ||| payload.getD 1 0 <<< 8 ||| payload.getD 2 0 = 1 := by
    rw [h0, h1, h2]
    decide
  have hflag80 : payload.getD 7 0 &&& 0xC0 ≠ 0 := by
    intro hc
    have : (payload.getD 7 0 &&& 0xC0).testBit 7 = (payload.getD 7 0).testBit 7 := by
      rw [Nat.testBit_and]
      have : (0xC0 : Nat).testBit 7 = true := by decide
      rw [this, Bool.and_true]
    rw [hc, hflag] at this
    simp at this
  have hmain := decodeTimestamp_eq_specTimestamp (payload.getD 9 0) (payload.getD 10 0)
    (payload.getD 11 0) (payload.getD 12 0) (payload.getD 13 0) (hbyte 10) (hbyte 12)
  refine ⟨?_, hmain.2, ?_, ?_⟩
  · unfold parsePes
    rw [hpre]
    rw [if_neg (by simp), if_pos hflag80, hmain.1]
  · intro hbit6
    have hflag40 : payload.getD 7 0 &&& 0x40 ≠ 0 := by
      intro hc
      have : (payload.getD 7 0 &&& 0x40).testBit 6 = (payload.getD 7 0).testBit 6 := by
        rw [Nat.testBit_and]
        have : (0x40 : Nat).testBit 6 = true := by decide
        rw [this, Bool.and_true]
      rw [hc, hbit6] at this
      simp at this
    have hd := decodeTimestamp_eq_specTimestamp (payload.getD 14 0) (payload.getD 15 0)
      (payload.getD 16 0) (payload.getD 17 0) (payload.getD 18 0) (hbyte 15) (hbyte 17)
    unfold parsePes
    rw [hpre]
    rw [if_neg (by simp), if_pos hflag80, if_pos hflag40, hd.1]
    rw [if_pos hflag80]
  · intro hbit6
    have hflag40 : payload.getD 7 0 &&& 0x40 = 0 := by
      have h64 : (0x40 : Nat) = 2 ^ 6 := by norm_num
      rw [h64, Nat.and_two_pow, hbit6]
      simp
    unfold parsePes
    rw [hpre]
    rw [if_neg (by simp), hflag40, if_neg (by simp : ¬((0 : Nat) ≠ 0)), if_pos hflag80]

/-! ## Stream types (`src/lib/m2ts/stream-types`) -/

namespace StreamTypes

def VIDEO_MPEG1 : Nat := 0x01
def VIDEO_MPEG2 : Nat := 0x02
def AUDIO_MPEG1 : Nat := 0x03
def AUDIO_MPEG2 : Nat := 0x04
def PRIVATE_DATA : Nat := 0x06
def AUDIO_ADTS : Nat := 0x0F
def AUDIO_LATM : Nat := 0x11
def METADATA : Nat := 0x15
def VIDEO_H264 : Nat := 0x1B
def AUDIO_AAC : Nat := 0x1C
def VIDEO_RVC : Nat := 30
def VIDEO_H264_SVC : Nat := 31
def VIDEO_H264_MVC : Nat := 32
def VIDEO_JP2K : Nat := 33
def VIDEO_MPEG2_STEREO : Nat := 34
def VIDEO_H264_STEREO : Nat := 35
def VIDEO_HEVC : Nat := 36
def VIDEO_ISO_14496 : Nat := 0x28
def VIDEO_ISO_15444 : Nat := 0x32
def VIDEO_ATSC_DCII : Nat := 128
def AUDIO_ATSC_AC3 : Nat := 129
def SUBTITLING_ATSC : Nat := 130
def AUDIO_ATSC_EAC3 : Nat := 135
def AUDIO_ATSC_DTS_HD : Nat := 136

end StreamTypes

def isAudioStream (streamType : Nat) : Bool :=
  [StreamTypes.AUDIO_MPEG1, StreamTypes.AUDIO_MPEG2, StreamTypes.AUDIO_ADTS,
    StreamTypes.AUDIO_LATM, StreamTypes.AUDIO_AAC, StreamTypes.AUDIO_ATSC_AC3,
    StreamTypes.AUDIO_ATSC_EAC3, StreamTypes.AUDIO_ATSC_DTS_HD].contains streamType

def isVideoStream (streamType : Nat) : Bool :=
  [StreamTypes.VIDEO_MPEG1, StreamTypes.VIDEO_MPEG2, StreamTypes.VIDEO_H264,
    StreamTypes.VIDEO_RVC, StreamTypes.VIDEO_H264_SVC, StreamTypes.VIDEO_H264_MVC,
    StreamTypes.VIDEO_JP2K, StreamTypes.VIDEO_MPEG2_STEREO, StreamTypes.VIDEO_H264_STEREO,
    StreamTypes.VIDEO_HEVC, StreamTypes.VIDEO_ISO_14496, StreamTypes.VIDEO_ISO_15444,
    StreamTypes.VIDEO_ATSC_DCII].contains streamType

/-! ## ElementaryStream: PES accumulators and `flushStream`

From `src/lib/m2ts/m2ts.js`.  The `StreamEventTypes` string constants
(`'video'`, `'audio'`, …) are modelled as an enumeration. -/

inductive StreamEvType where
  | video
  | audio
  | timedMetadata
  | subtitles
  | metadata
deriving Repr, DecidableEq

/-- One buffered TS payload: the fields of the parsed `pes` packet that the
accumulators keep (`stream.data` stores the whole result object; only its
`pid` and `data` are read back). -/
structure PesFragment where
  pid : Nat
  data : List Byte
deriving Repr, DecidableEq

/-- A per-stream PES accumulator (`defaultStream()` is `{ data: [], size: 0 }`). -/
structure PesStream where
  data : List PesFragment
  size : Nat
deriving Repr, DecidableEq

def PesStream.empty : PesStream := ⟨[], 0⟩

/-- `size` is maintained by `push` as the total byte length of the buffered
fragments; `flushStream`'s `Buffer.alloc(stream.size)` reassembly equals plain
concatenation exactly on such states. -/
def PesStream.wf (s : PesStream) : Prop :=
  s.size = (s.data.map (fun f => f.data.length)).sum

/-- A `data` event emitted by the ElementaryStream for one reassembled PES. -/
structure PesEvent where
  type : StreamEvType
  trackId : Option Nat
  parsed : PesParsed
deriving Repr, DecidableEq

/-- `flushStream(stream, type, forceFlush)`: skip when fewer than 9 bytes are
buffered; otherwise reassemble the fragments, parse the PES header, clear the
accumulator when forced or flushable, and emit the event only when flushable
(video always is; audio/metadata need `packetLength ≤ size`). -/
def flushStream (stream : PesStream) (type : StreamEvType) (forceFlush : Bool) :
    PesStream × Option PesEvent :=
  if stream.data.length = 0 ∨ stream.size < 9 then
    (stream, none)
  else
    let packetData := (stream.data.map (fun f => f.data)).join
    let parsed := parsePes packetData
    let event : PesEvent :=
      { type := type, trackId := stream.data.head?.map (fun f => f.pid), parsed := parsed }
    let packetFlushable : Bool :=
      type = StreamEvType.video ||
        (match parsed.packetLength with
          | some l => decide (l ≤ stream.size)
          | none => false)
    let stream' := if forceFlush || packetFlushable then PesStream.empty else stream
    (stream', if packetFlushable then some event else none)

/-- The parsed TS packet the TransportParseStream hands to the
ElementaryStream for a PES-typed packet. -/
structure PesInput where
  streamType : Option Nat
  pid : Nat
  payloadUnitStartIndicator : Bool
  data : List Byte
deriving Repr, DecidableEq

def lookupOrEmpty (m : List (Nat × PesStream)) (pid : Nat) : PesStream :=
  match m.lookup pid with
  | some s => s
  | none => PesStream.empty

/-- JavaScript object/`Map` assignment: update in place when the key exists,
append in insertion order otherwise. -/
def setStream (m : List (Nat × PesStream)) (pid : Nat) (s : PesStream) :
    List (Nat × PesStream) :=
  if m.any (fun p => p.1 = pid) then
    m.map (fun p => if p.1 = pid then (pid, s) else p)
  else m ++ [(pid, s)]

/-- State of the ElementaryStream: one accumulator for video and
timed-metadata, one per PID for audio and subtitles (the subtitles map is
never populated: the `PRIVATE_DATA` case of `push` is commented out). -/
structure ESState where
  video : PesStream
  audio : List (Nat × PesStream)
  subtitles : List (Nat × PesStream)
  timedMetadata : PesStream
deriving Repr, DecidableEq

def ESState.initial : ESState := ⟨PesStream.empty, [], [], PesStream.empty⟩

/-- The common tail of the `pes` handler for a selected accumulator: flush the
completed packet when a new one starts, then buffer the fragment. -/
def stepStream (s : PesStream) (type : StreamEvType) (input : PesInput) :
    PesStream × Option PesEvent :=
  let r := if input.payloadUnitStartIndicator then flushStream s type true else (s, none)
  ({ data := r.1.data ++ [⟨input.pid, input.data⟩],
     size := r.1.size + input.data.length }, r.2)

/-- The `pes:` branch of `ElementaryStream.push`: route on `streamType`
(video / audio-by-pid / timed-metadata; everything else ignored). -/
def ElementaryStream.pushPes (st : ESState) (input : PesInput) :
    ESState × Option PesEvent :=
  if input.streamType = some StreamTypes.VIDEO_H264 then
    let r := stepStream st.video StreamEvType.video input
    ({ st with video := r.1 }, r.2)
  else if input.streamType = some StreamTypes.AUDIO_ADTS then
    let r := stepStream (lookupOrEmpty st.audio input.pid) StreamEvType.audio input
    ({ st with audio := setStream st.audio input.pid r.1 }, r.2)
  else if input.streamType = some StreamTypes.METADATA then
    let r := stepStream st.timedMetadata StreamEvType.timedMetadata input
    ({ st with timedMetadata := r.1 }, r.2)
  else (st, none)

/-- `flushStreams_`: drain the accumulators in the order video, each audio
PID, subtitles, timed metadata (the "!!THIS ORDER IS IMPORTANT!!" comment). -/
def ElementaryStream.flushStreams (st : ESState) : ESState × List PesEvent :=
  let rv := flushStream st.video StreamEvType.video false
  let ra := st.audio.map (fun p => (p.1, flushStream p.2 StreamEvType.audio false))
  let rs := st.subtitles.map (fun p => (p.1, flushStream p.2 StreamEvType.subtitles false))
  let rt := flushStream st.timedMetadata StreamEvType.timedMetadata false
  ({ video := rv.1, audio := ra.map (fun p => (p.1, p.2.1)),
     subtitles := rs.map (fun p => (p.1, p.2.1)), timedMetadata := rt.1 },
   rv.2.toList ++ (ra.map (fun p => p.2.2)).reduceOption ++
     (rs.map (fun p => p.2.2)).reduceOption ++ rt.2.toList)

/-- A reassembled payload that does not begin with the `0x000001` start code
leaves only the empty `data` on the event and no further fields. -/
theorem parsePes_noStartCode (payload : List Byte)
    (hbad : payload.getD 0 0 <<< 16 ||| payload.getD 1 0 <<< 8 ||| payload.getD 2 0 ≠ 1) :
    parsePes payload =
      { data := [], packetLength := none, dataAlignmentIndicator := none,
        pts := none, dts := none } := by
  unfold parsePes
  rw [if_pos hbad]

/-- `flushStream` does nothing when fewer than 9 bytes (or no fragments) are
buffered. -/
theorem flushStream_skip (s : PesStream) (t : StreamEvType) (ff : Bool)
    (h : s.data.length = 0 ∨ s.size < 9) : flushStream s t ff = (s, none) := by
  unfold flushStream
  rw [if_pos h]

/-- A forced `flushStream` of a parseable-sized accumulator always clears it. -/
theorem flushStream_force_clears (s : PesStream) (t : StreamEvType)
    (h : ¬(s.data.length = 0 ∨ s.size < 9)) :
    (flushStream s t true).1 = PesStream.empty := by
  unfold flushStream
  rw [if_neg h]
  simp

/-- `stepStream` on a payload-unit-start input: flush forced, then buffer. -/
theorem stepStream_pusi (s : PesStream) (type : StreamEvType) (input : PesInput)
    (hp : input.payloadUnitStartIndicator = true) :
    stepStream s type input =
      ({ data := (flushStream s type true).1.data ++ [⟨input.pid, input.data⟩],
         size := (flushStream s type true).1.size + input.data.length },
       (flushStream s type true).2) := by
  unfold stepStream
  rw [hp]
  simp

/-- C7 counterexample: a video accumulator holding 9 bytes that start with
`0x000002` (not the PES start code).  Flushing it still emits a data event,
contradicting the claim that no data event is emitted for any stream type. -/
def c7Stream : PesStream := ⟨[⟨33, [0, 0, 2, 0, 0, 0, 0, 0, 0]⟩], 9⟩

/-- C7 is false as stated: on this concrete video accumulator the reassembled
bytes begin with `0 0 2`, yet the flush emits a data event. -/
theorem flushStream_noStartCode_video_emits :
    ((c7Stream.data.map (fun f => f.data)).join.take 3 = [0, 0, 2]) ∧
      (flushStream c7Stream StreamEvType.video true).2.isSome = true := by
  decide

/-- C7 (amended): on a flush of an accumulator whose reassembled bytes do not
begin with `0x000001`, the accumulated payload is discarded: for audio and
timed-metadata (any non-video type) no data event is emitted, and the buffer
is cleared exactly when the flush was forced; for video a data event is still
emitted, but it carries an empty payload, and the buffer is cleared. -/
theorem flushStream_noStartCode (s : PesStream) (type : StreamEvType) (forceFlush : Bool)
    (hne : s.data.length ≠ 0) (hsz : 9 ≤ s.size)
    (hbad : ((s.data.map (fun f => f.data)).join.getD 0 0 <<< 16 |||
        (s.data.map (fun f => f.data)).join.getD 1 0 <<< 8 |||
        (s.data.map (fun f => f.data)).join.getD 2 0) ≠ 1) :
    (type ≠ StreamEvType.video →
        (flushStream s type forceFlush).2 = none ∧
        (flushStream s type forceFlush).1 = if forceFlush then PesStream.empty else s) ∧
    (type = StreamEvType.video →
        (flushStream s type forceFlush).1 = PesStream.empty ∧
        ∃ ev, (flushStream s type forceFlush).2 = some ev ∧ ev.parsed.data = []) := by
  have hcond : ¬(s.data.length = 0 ∨ s.size < 9) := by omega
  have hpp := parsePes_noStartCode _ hbad
  constructor
  · intro hv
    unfold flushStream
    rw [if_neg hcond]
    simp only [hpp]
    have hb : decide (type = StreamEvType.video) = false := by
      simpa using hv
    simp [hb]
  · intro hv
    subst hv
    unfold flushStream
    rw [if_neg hcond]
    simp only [hpp]
    simp

/-- C10 counterexample: the ElementaryStream is holding a 5-byte partial PES
for video when a payload-unit-start fragment arrives. -/
def c10State : ESState :=
  { ESState.initial with video := ⟨[⟨5, [0, 0, 1, 0, 0]⟩], 5⟩ }

def c10Input : PesInput :=
  { streamType := some StreamTypes.VIDEO_H264, pid := 5,
    payloadUnitStartIndicator := true, data := [0, 0, 1, 0xC0, 0, 0, 0x80, 0, 0] }

/-- C10 is false as stated: the arriving payload-unit-start fragment does not
empty the 5-byte accumulator — the stale fragment is retained in front of the
new one instead of the accumulator being reset. -/
theorem pushPes_small_accumulator_not_reset :
    (ElementaryStream.pushPes c10State c10Input).1.video.data.length = 2 ∧
      (ElementaryStream.pushPes c10State c10Input).1.video ≠
        { data := [⟨c10Input.pid, c10Input.data⟩], size := c10Input.data.length } := by
  decide

/-- C10 (amended): for every stream type handled by the ElementaryStream (its
video, audio and timed-metadata inputs all go through `stepStream`), a
payload-unit-start fragment empties the accumulator before buffering the new
unit exactly when at least 9 bytes were accumulated; a smaller partial
accumulation is retained and merges into the new unit.  When at least 9 bytes
were accumulated: an incomplete non-video PES (header not parseable or
`packetLength > size`) is dropped silently with no event, and a complete one
is emitted exactly once. -/
theorem stepStream_pusi_behavior (s : PesStream) (type : StreamEvType) (input : PesInput)
    (hp : input.payloadUnitStartIndicator = true) :
    ((s.data.length ≠ 0 ∧ 9 ≤ s.size →
        (stepStream s type input).1 =
          { data := [⟨input.pid, input.data⟩], size := input.data.length }) ∧
      (s.data.length = 0 ∨ s.size < 9 →
        (stepStream s type input).1 =
          { data := s.data ++ [⟨input.pid, input.data⟩],
            size := s.size + input.data.length })) ∧
    (type ≠ StreamEvType.video → s.data.length ≠ 0 → 9 ≤ s.size →
      (((parsePes ((s.data.map (fun f => f.data)).join)).packetLength = none ∨
          (∃ l, (parsePes ((s.data.map (fun f => f.data)).join)).packetLength = some l ∧
            s.size < l)) →
        (stepStream s type input).2 = none) ∧
      (∀ l, (parsePes ((s.data.map (fun f => f.data)).join)).packetLength = some l →
        l ≤ s.size →
        (stepStream s type input).2 =
          some { type := type, trackId := s.data.head?.map (fun f => f.pid),
                 parsed := parsePes ((s.data.map (fun f => f.data)).join) })) := by
  refine ⟨⟨?_, ?_⟩, ?_⟩
  · intro ⟨h1, h2⟩
    have hc : ¬(s.data.length = 0 ∨ s.size < 9) := by omega
    rw [stepStream_pusi s type input hp, flushStream_force_clears s type hc]
    simp [PesStream.empty]
  · intro h
    rw [stepStream_pusi s type input hp, flushStream_skip s type true h]
  · intro hv h1 h2
    have hc : ¬(s.data.length = 0 ∨ s.size < 9) := by omega
    have hb : decide (type = StreamEvType.video) = false := by
      simpa using hv
    have hsnd : (flushStream s type true).2 =
        if (decide (type = StreamEvType.video) ||
            (match (parsePes ((s.data.map (fun f => f.data)).join)).packetLength with
              | some l => decide (l ≤ s.size)
              | none => false)) = true then
          some { type := type, trackId := s.data.head?.map (fun f => f.pid),
                 parsed := parsePes ((s.data.map (fun f => f.data)).join) }
        else none := by
      unfold flushStream
      rw [if_neg hc]
    constructor
    · intro hinc
      rw [stepStream_pusi s type input hp]
      simp only [hsnd, hb]
      rcases hinc with hnone | ⟨l, hl, hlt⟩
      · simp [hnone]
      · have : ¬(l ≤ s.size) := by omega
        simp [hl, this]
    · intro l hl hle
      rw [stepStream_pusi s type input hp]
      simp only [hsnd, hb]
      simp [hl, hle]

/-- Rank of a stream event type in the drain order of `flushStreams_`. -/
def streamRank : StreamEvType → Nat
  | .video => 0
  | .audio => 1
  | .subtitles => 2
  | .timedMetadata => 3
  | .metadata => 4

theorem flushStream_event_type (s : PesStream) (t : StreamEvType) (ff : Bool)
    (ev : PesEvent) (h : (flushStream s t ff).2 = some ev) : ev.type = t := by
  by_cases hc : s.data.length = 0 ∨ s.size < 9
  · rw [flushStream_skip s t ff hc] at h
    simp at h
  · unfold flushStream at h
    rw [if_neg hc] at h
    simp only at h
    split at h
    · rw [← Option.some.inj h]
    · simp at h

/-- Sections of constant stream type, listed in increasing drain rank,
concatenate to a rank-monotone event list. -/
theorem pairwise_rank_sections (A B C D : List PesEvent)
    (hA : ∀ e ∈ A, e.type = StreamEvType.video)
    (hB : ∀ e ∈ B, e.type = StreamEvType.audio)
    (hC : ∀ e ∈ C, e.type = StreamEvType.subtitles)
    (hD : ∀ e ∈ D, e.type = StreamEvType.timedMetadata) :
    List.Pairwise (fun a b => streamRank a.type ≤ streamRank b.type)
      (A ++ (B ++ (C ++ D))) := by
  have pwconst : ∀ (l : List PesEvent) (c : StreamEvType), (∀ e ∈ l, e.type = c) →
      List.Pairwise (fun a b => streamRank a.type ≤ streamRank b.type) l := by
    intro l c hc
    refine List.pairwise_of_forall_mem_list ?_
    intro a ha b hb
    rw [hc a ha, hc b hb]
  rw [List.pairwise_append]
  refine ⟨pwconst A _ hA, ?_, ?_⟩
  · rw [List.pairwise_append]
    refine ⟨pwconst B _ hB, ?_, ?_⟩
    · rw [List.pairwise_append]
      refine ⟨pwconst C _ hC, pwconst D _ hD, ?_⟩
      intro a ha b hb
      rw [hC a ha, hD b hb]
      decide
    · intro a ha b hb
      rcases List.mem_append.mp hb with h | h
      · rw [hB a ha, hC b h]
        decide
      · rw [hB a ha, hD b h]
        decide
  · intro a ha b hb
    rcases List.mem_append.mp hb with h | h
    · rw [hA a ha, hB b h]
      decide
    rcases List.mem_append.mp h with h2 | h2
    · rw [hA a ha, hC b h2]
      decide
    · rw [hA a ha, hD b h2]
      decide

/-- C8: on drain, the ElementaryStream flushes its accumulators in the fixed
order video, then each audio PID in insertion order, then private data
(subtitles), then timed metadata; the emitted PES events reach the next stage
in that order: the event list is exactly the concatenation of the four
sections, and the event types are monotone in the drain rank. -/
theorem flushStreams_order (st : ESState) :
    (ElementaryStream.flushStreams st).2 =
      (flushStream st.video StreamEvType.video false).2.toList ++
        ((st.audio.map (fun p => (flushStream p.2 StreamEvType.audio false).2)).reduceOption ++
          ((st.subtitles.map
              (fun p => (flushStream p.2 StreamEvType.subtitles false).2)).reduceOption ++
            (flushStream st.timedMetadata StreamEvType.timedMetadata false).2.toList)) ∧
    List.Pairwise (fun a b => streamRank a.type ≤ streamRank b.type)
      (ElementaryStream.flushStreams st).2 := by
  have hv : ∀ e ∈ (flushStream st.video StreamEvType.video false).2.toList,
      e.type = StreamEvType.video := by
    intro e he
    exact flushStream_event_type _ _ _ _ (Option.mem_toList.mp he)
  have ha : ∀ e ∈ (st.audio.map
      (fun p => (flushStream p.2 StreamEvType.audio false).2)).reduceOption,
      e.type = StreamEvType.audio := by
    intro e he
    rcases List.mem_map.mp (List.reduceOption_mem_iff.mp he) with ⟨p, _, hp⟩
    exact flushStream_event_type _ _ _ _ hp
  have hs : ∀ e ∈ (st.subtitles.map
      (fun p => (flushStream p.2 StreamEvType.subtitles false).2)).reduceOption,
      e.type = StreamEvType.subtitles := by
    intro e he
    rcases List.mem_map.mp (List.reduceOption_mem_iff.mp he) with ⟨p, _, hp⟩
    exact flushStream_event_type _ _ _ _ hp
  have ht : ∀ e ∈ (flushStream st.timedMetadata StreamEvType.timedMetadata false).2.toList,
      e.type = StreamEvType.timedMetadata := by
    intro e he
    exact flushStream_event_type _ _ _ _ (Option.mem_toList.mp he)
  have hdecomp : (ElementaryStream.flushStreams st).2 =
      (flushStream st.video StreamEvType.video false).2.toList ++
        ((st.audio.map (fun p => (flushStream p.2 StreamEvType.audio false).2)).reduceOption ++
          ((st.subtitles.map
              (fun p => (flushStream p.2 StreamEvType.subtitles false).2)).reduceOption ++
            (flushStream st.timedMetadata StreamEvType.timedMetadata false).2.toList)) := by
    unfold ElementaryStream.flushStreams
    simp only [List.map_map, List.append_assoc]
    rfl
  refine ⟨hdecomp, ?_⟩
  rw [hdecomp]
  exact pairwise_rank_sections _ _ _ _ hv ha hs ht

/-- A concrete PES payload: start code, `ptsDtsFlags = 0xC0`, PTS bytes
`0x21 0x00 0x01 0x00 0x01` and DTS bytes `0x11 0x00 0x01 0x00 0x01`. -/
def c3Payload : List Byte :=
  [0x00, 0x00, 0x01, 0xE0, 0x00, 0x0A, 0x84, 0xC0, 0x0A,
    0x21, 0x00, 0x01, 0x00, 0x01, 0x11, 0x00, 0x01, 0x00, 0x01]

theorem parsePes_timestamps_witness :
    (∀ b ∈ c3Payload, b < 256) ∧
      ((parsePes c3Payload).pts =
          some (specTimestamp (c3Payload.getD 9 0) (c3Payload.getD 10 0)
            (c3Payload.getD 11 0) (c3Payload.getD 12 0) (c3Payload.getD 13 0)) ∧
        specTimestamp (c3Payload.getD 9 0) (c3Payload.getD 10 0)
            (c3Payload.getD 11 0) (c3Payload.getD 12 0) (c3Payload.getD 13 0) < 2 ^ 33 ∧
        ((c3Payload.getD 7 0).testBit 6 = true →
          (parsePes c3Payload).dts =
            some (specTimestamp (c3Payload.getD 14 0) (c3Payload.getD 15 0)
              (c3Payload.getD 16 0) (c3Payload.getD 17 0) (c3Payload.getD 18 0))) ∧
        ((c3Payload.getD 7 0).testBit 6 = false →
          (parsePes c3Payload).dts = (parsePes c3Payload).pts)) :=
  ⟨by decide,
    parsePes_timestamps c3Payload (by decide) (by decide) (by decide) (by decide) (by decide)⟩

/-- A 9-byte audio accumulator whose bytes do not start with `0x000001`. -/
def c7AudioStream : PesStream := ⟨[⟨7, [0, 0, 2, 0, 0, 0, 0, 0, 0]⟩], 9⟩

theorem flushStream_noStartCode_witness :
    (c7AudioStream.data.length ≠ 0 ∧ 9 ≤ c7AudioStream.size) ∧
      ((StreamEvType.audio ≠ StreamEvType.video →
          (flushStream c7AudioStream StreamEvType.audio true).2 = none ∧
          (flushStream c7AudioStream StreamEvType.audio true).1 =
            if true then PesStream.empty else c7AudioStream) ∧
        (StreamEvType.audio = StreamEvType.video →
          (flushStream c7AudioStream StreamEvType.audio true).1 = PesStream.empty ∧
          ∃ ev, (flushStream c7AudioStream StreamEvType.audio true).2 = some ev ∧
            ev.parsed.data = [])) :=
  ⟨⟨by decide, by decide⟩,
    flushStream_noStartCode c7AudioStream StreamEvType.audio true
      (by decide) (by decide) (by decide)⟩

/-- A 12-byte audio accumulator holding one complete small PES, interrupted by
a payload-unit-start fragment. -/
def c10WitnessStream : PesStream :=
  ⟨[⟨3, [0, 0, 1, 0xC0, 0x00, 0x03, 0x00, 0x00, 0x00, 0x01, 0x02, 0x03]⟩], 12⟩

def c10WitnessInput : PesInput :=
  { streamType := some StreamTypes.AUDIO_ADTS, pid := 3,
    payloadUnitStartIndicator := true, data := [0, 0, 1, 0xC0, 0, 0, 0, 0, 0] }

theorem stepStream_pusi_behavior_witness :
    c10WitnessInput.payloadUnitStartIndicator = true ∧
      (((c10WitnessStream.data.length ≠ 0 ∧ 9 ≤ c10WitnessStream.size →
          (stepStream c10WitnessStream StreamEvType.audio c10WitnessInput).1 =
            { data := [⟨c10WitnessInput.pid, c10WitnessInput.data⟩],
              size := c10WitnessInput.data.length }) ∧
        (c10WitnessStream.data.length = 0 ∨ c10WitnessStream.size < 9 →
          (stepStream c10WitnessStream StreamEvType.audio c10WitnessInput).1 =
            { data := c10WitnessStream.data ++ [⟨c10WitnessInput.pid, c10WitnessInput.data⟩],
              size := c10WitnessStream.size + c10WitnessInput.data.length })) ∧
      (StreamEvType.audio ≠ StreamEvType.video → c10WitnessStream.data.length ≠ 0 →
        9 ≤ c10WitnessStream.size →
        (((parsePes ((c10WitnessStream.data.map (fun f => f.data)).join)).packetLength = none ∨
            (∃ l, (parsePes
                ((c10WitnessStream.data.map (fun f => f.data)).join)).packetLength = some l ∧
              c10WitnessStream.size < l)) →
          (stepStream c10WitnessStream StreamEvType.audio c10WitnessInput).2 = none) ∧
        (∀ l, (parsePes
            ((c10WitnessStream.data.map (fun f => f.data)).join)).packetLength = some l →
          l ≤ c10WitnessStream.size →
          (stepStream c10WitnessStream StreamEvType.audio c10WitnessInput).2 =
            some { type := StreamEvType.audio,
                   trackId := c10WitnessStream.data.head?.map (fun f => f.pid),
                   parsed := parsePes
                     ((c10WitnessStream.data.map (fun f => f.data)).join) }))) :=
  ⟨by decide,
    stepStream_pusi_behavior c10WitnessStream StreamEvType.audio c10WitnessInput (by decide)⟩

/-! ## TransportParseStream: PAT/PMT parsing and the waiting-for-PMT queue

From `src/lib/m2ts/m2ts.js`.  The PSI section decoding
(`ProgramSpecificInformation` from `@taktik/mpegts-tools`) is an external
collaborator: its output — the elementary-stream records of the PMT — is
passed in as data (`EsRecord`), and the decoder itself as a function
parameter `psi` where needed. -/

/-- A descriptor summary as produced by the external PSI parser: the fields
of `esInfo` the parse stream reads. -/
structure EsInfo where
  isVideo : Bool
  isAudio : Bool
  isIsoLang : Bool
  languages : List String
  isSubtitling : Bool
  isTeletext : Bool
  innerData : List String
deriving Repr, DecidableEq

/-- One elementary stream of a PMT as decoded by the external PSI parser. -/
structure EsRecord where
  type : Nat
  pid : Nat
  esInfos : List EsInfo
deriving Repr, DecidableEq

/-- The DVB-subtitle record stored in `programMapTable.privateData[pid]`
(the constant `type: 'subtitles'` / `subtitleType: DVB` tags are left
implicit). -/
structure PrivateDataInfo where
  language : String
deriving Repr, DecidableEq

/-- `programMapTable`: the audio `Map` and the plain objects are modelled as
insertion-ordered association lists. -/
structure ProgramMapTable where
  video : Option Nat
  audio : List (Nat × List String)
  privateData : List (Nat × PrivateDataInfo)
  timedMetadata : List (Nat × Nat)
deriving Repr, DecidableEq

/-- JavaScript `Map.set` / object property assignment on an
insertion-ordered association list. -/
def jsMapSet {α : Type} (m : List (Nat × α)) (k : Nat) (v : α) : List (Nat × α) :=
  if m.any (fun p => p.1 = k) then m.map (fun p => if p.1 = k then (k, v) else p)
  else m ++ [(k, v)]

def detectVideoStream (broad : Bool) (type : Nat) (esInfos : List EsInfo) : Bool :=
  if broad then isVideoStream type || esInfos.any (fun e => e.isVideo)
  else type == StreamTypes.VIDEO_H264

def detectAudioStream (broad : Bool) (type : Nat) (esInfos : List EsInfo) : Bool :=
  if broad then isAudioStream type || esInfos.any (fun e => e.isAudio)
  else type == StreamTypes.AUDIO_ADTS

def emptyProgramMapTable : ProgramMapTable := ⟨none, [], [], []⟩

/-- One step of the `psi.elementaryStreams.forEach` loop of `parsePmt`. -/
def pmtAddStream (broad : Bool) (pmt : ProgramMapTable) (e : EsRecord) : ProgramMapTable :=
  if detectVideoStream broad e.type e.esInfos then
    if pmt.video = none then { pmt with video := some e.pid } else pmt
  else if detectAudioStream broad e.type e.esInfos then
    let languages :=
      match e.esInfos.find? (fun i => i.isIsoLang) with
      | some d => d.languages
      | none => []
    { pmt with audio := jsMapSet pmt.audio e.pid languages }
  else if e.type = StreamTypes.METADATA then
    { pmt with timedMetadata := jsMapSet pmt.timedMetadata e.pid e.type }
  else if e.type = StreamTypes.PRIVATE_DATA then
    match e.esInfos.find? (fun i => i.isSubtitling) with
    | some sd =>
      match sd.innerData.head? with
      | some lang => { pmt with privateData := jsMapSet pmt.privateData e.pid ⟨lang⟩ }
      | none => pmt
    | none => pmt
  else pmt

def buildProgramMapTable (broad : Bool) (es : List EsRecord) : ProgramMapTable :=
  es.foldl (pmtAddStream broad) emptyProgramMapTable

/-- `parsePmt`: a "forward" PMT (current_next_indicator = 0, payload byte 6
bit 0) is ignored; otherwise the existing program map is overwritten with a
freshly built one. -/
def parsePmt (broad : Bool) (payload : List Byte) (es : List EsRecord)
    (old : Option ProgramMapTable) : Option ProgramMapTable :=
  if payload.getD 6 0 &&& 0x01 = 0 then old
  else some (buildProgramMapTable broad es)

/-- A video assignment is never overwritten by later elementary streams. -/
theorem pmtAddStream_video_some (broad : Bool) (pmt : ProgramMapTable) (e : EsRecord)
    (v : Nat) (hv : pmt.video = some v) : (pmtAddStream broad pmt e).video = some v := by
  unfold pmtAddStream
  split
  · rw [if_neg (by rw [hv]; simp)]
    exact hv
  · split
    · exact hv
    · split
      · exact hv
      · split
        · split
          · split
            · exact hv
            · exact hv
          · exact hv
        · exact hv

theorem buildFold_video_some (broad : Bool) (es : List EsRecord) :
    ∀ (pmt : ProgramMapTable) (v : Nat), pmt.video = some v →
      (es.foldl (pmtAddStream broad) pmt).video = some v := by
  induction es with
  | nil => intro pmt v hv; simpa using hv
  | cons e es ih =>
    intro pmt v hv
    rw [List.foldl_cons]
    exact ih _ v (pmtAddStream_video_some broad pmt e v hv)

/-- Only video detection can set `video`, and it sets it to that stream's pid. -/
theorem pmtAddStream_video_none (broad : Bool) (pmt : ProgramMapTable) (e : EsRecord)
    (hv : pmt.video = none) :
    (pmtAddStream broad pmt e).video =
      if detectVideoStream broad e.type e.esInfos then some e.pid else none := by
  by_cases hd : detectVideoStream broad e.type e.esInfos = true
  · rw [if_pos hd]
    unfold pmtAddStream
    rw [if_pos hd, if_pos hv]
  · rw [if_neg hd]
    unfold pmtAddStream
    rw [if_neg hd]
    split
    · exact hv
    · split
      · exact hv
      · split
        · split
          · split
            · exact hv
            · exact hv
          · exact hv
        · exact hv

theorem buildFold_video (broad : Bool) (es : List EsRecord) :
    ∀ (pmt : ProgramMapTable), pmt.video = none →
      (es.foldl (pmtAddStream broad) pmt).video =
        (es.find? (fun e => detectVideoStream broad e.type e.esInfos)).map
          (fun e => e.pid) := by
  induction es with
  | nil => intro pmt hv; simpa using hv
  | cons e es ih =>
    intro pmt hv
    rw [List.foldl_cons]
    by_cases hd : detectVideoStream broad e.type e.esInfos = true
    · have h1 : (pmtAddStream broad pmt e).video = some e.pid := by
        rw [pmtAddStream_video_none broad pmt e hv, if_pos hd]
      rw [buildFold_video_some broad es _ e.pid h1, List.find?_cons]
      simp [hd]
    · have h1 : (pmtAddStream broad pmt e).video = none := by
        rw [pmtAddStream_video_none broad pmt e hv, if_neg hd]
      rw [ih _ h1, List.find?_cons]
      simp only [Bool.not_eq_true] at hd
      simp [hd]

/-- C5: a PMT whose current_next_indicator bit is clear leaves the program
map unchanged; otherwise the whole map is replaced by a freshly built one —
independent of the previous map, never a partial merge — and the first
elementary stream detected as video (in descriptor order) becomes the video
PID. -/
theorem parsePmt_properties (broad : Bool) (payload : List Byte) (es : List EsRecord) :
    (payload.getD 6 0 &&& 0x01 = 0 →
      ∀ old, parsePmt broad payload es old = old) ∧
    (payload.getD 6 0 &&& 0x01 ≠ 0 →
      ∀ old, parsePmt broad payload es old = some (buildProgramMapTable broad es)) ∧
    (buildProgramMapTable broad es).video =
      (es.find? (fun e => detectVideoStream broad e.type e.esInfos)).map
        (fun e => e.pid) := by
  refine ⟨?_, ?_, ?_⟩
  · intro h old
    unfold parsePmt
    rw [if_pos h]
  · intro h old
    unfold parsePmt
    rw [if_neg h]
  · exact buildFold_video broad es emptyProgramMapTable rfl

def c5Payload : List Byte := [0x02, 0xB0, 0x1F, 0x00, 0x01, 0xC1, 0x01]

def c5PayloadFuture : List Byte := [0x02, 0xB0, 0x1F, 0x00, 0x01, 0xC1, 0x00]

def c5Streams : List EsRecord :=
  [⟨StreamTypes.AUDIO_ADTS, 0x101, []⟩,
   ⟨StreamTypes.VIDEO_H264, 0x100, []⟩,
   ⟨StreamTypes.VIDEO_H264, 0x102, []⟩]

theorem parsePmt_properties_witness :
    (c5PayloadFuture.getD 6 0 &&& 0x01 = 0 ∧
      ∀ old, parsePmt false c5PayloadFuture c5Streams old = old) ∧
    (c5Payload.getD 6 0 &&& 0x01 ≠ 0 ∧
      ∀ old, parsePmt false c5Payload c5Streams old =
        some (buildProgramMapTable false c5Streams)) ∧
    (buildProgramMapTable false c5Streams).video =
      (c5Streams.find? (fun e => detectVideoStream false e.type e.esInfos)).map
        (fun e => e.pid) ∧
    (buildProgramMapTable false c5Streams).video = some 0x100 :=
  ⟨⟨by decide, (parsePmt_properties false c5PayloadFuture c5Streams).1 (by decide)⟩,
    ⟨by decide, (parsePmt_properties false c5Payload c5Streams).2.1 (by decide)⟩,
    (parsePmt_properties false c5Payload c5Streams).2.2, by decide⟩

/-- TS header fields decoded at the top of `TransportParseStream.push`. -/
def tsPacketPusi (packet : List Byte) : Bool := packet.getD 1 0 &&& 0x40 ≠ 0

def tsPacketPid (packet : List Byte) : Nat :=
  (packet.getD 1 0 &&& 0x1f) <<< 8 ||| packet.getD 2 0

/-- Payload offset: 4 header bytes, plus the adaptation field (length byte
included) when the adaptation_field_control bits request one. -/
def tsPacketOffset (packet : List Byte) : Nat :=
  if (packet.getD 3 0 &&& 0x30) >>> 4 > 0x01 then 4 + (packet.getD 4 0 + 1) else 4

/-- An entry of `packetsWaitingForPmt`: the `[packet, offset, result]` triple
(the result's decoded header fields flattened in). -/
structure WaitingPacket where
  packet : List Byte
  offset : Nat
  payloadUnitStartIndicator : Bool
  pid : Nat
deriving Repr, DecidableEq

structure TPSState where
  pmtPid : Option Nat
  programMapTable : Option ProgramMapTable
  packetsWaitingForPmt : List WaitingPacket
deriving Repr, DecidableEq

def TPSState.initial : TPSState := ⟨none, none, []⟩

/-- The data events the TransportParseStream emits. -/
inductive ParseEvent where
  | pat (payloadUnitStartIndicator : Bool) (sectionNumber lastSectionNumber pmtPid : Nat)
  | pmt (payloadUnitStartIndicator : Bool) (pid : Nat) (table : Option ProgramMapTable)
  | pes (payloadUnitStartIndicator : Bool) (pid : Nat) (streamType : Option Nat)
      (data : List Byte)
deriving Repr, DecidableEq

/-- `processPes_`: look the pid up in the program map to tag the stream type
(video, then audio, then private data, then timed-metadata, else undefined)
and forward the packet payload as a `pes` data event. -/
def processPes (table : ProgramMapTable) (w : WaitingPacket) : ParseEvent :=
  let streamType :=
    if table.video = some w.pid then some StreamTypes.VIDEO_H264
    else if table.audio.any (fun p => p.1 = w.pid) then some StreamTypes.AUDIO_ADTS
    else if table.privateData.any (fun p => p.1 = w.pid) then some StreamTypes.PRIVATE_DATA
    else table.timedMetadata.lookup w.pid
  .pes w.payloadUnitStartIndicator w.pid streamType (w.packet.drop w.offset)

/-- `TransportParseStream.push`.  `psi` is the external PSI section decoder
(applied to the PMT payload).  Draining the waiting queue calls `processPes_`,
which dereferences `this.programMapTable`; when no PMT has ever been parsed
(a first PMT with current_next_indicator = 0) that is a JavaScript
`TypeError`, modelled as `Except.error`. -/
def TransportParseStream.push (broad : Bool) (psi : List Byte → List EsRecord)
    (st : TPSState) (packet : List Byte) : Except String (TPSState × List ParseEvent) :=
  let pusi := tsPacketPusi packet
  let pid := tsPacketPid packet
  let offset := tsPacketOffset packet
  if pid = 0 then
    let payload0 := packet.drop offset
    let payload := if pusi then payload0.drop (payload0.getD 0 0 + 1) else payload0
    let pmtPid := (payload.getD 10 0 &&& 0x1F) <<< 8 ||| payload.getD 11 0
    .ok ({ st with pmtPid := some pmtPid },
      [.pat pusi (payload.getD 7 0) (payload.getD 8 0) pmtPid])
  else if st.pmtPid = some pid then
    let payload := packet.drop offset
    match parsePmt broad payload (psi payload) st.programMapTable with
    | some t =>
      let recorded := if payload.getD 6 0 &&& 0x01 = 0 then none else some t
      .ok ({ st with programMapTable := some t, packetsWaitingForPmt := [] },
        ParseEvent.pmt pusi pid recorded :: st.packetsWaitingForPmt.map (processPes t))
    | none =>
      if st.packetsWaitingForPmt.isEmpty then
        .ok ({ st with packetsWaitingForPmt := [] }, [ParseEvent.pmt pusi pid none])
      else
        .error "TypeError: cannot read programMapTable of undefined"
  else if st.programMapTable = none then
    .ok ({ st with packetsWaitingForPmt :=
      st.packetsWaitingForPmt ++ [⟨packet, offset, pusi, pid⟩] }, [])
  else
    match st.programMapTable with
    | some t => .ok (st, [processPes t ⟨packet, offset, pusi, pid⟩])
    | none => .error "unreachable: programMapTable was checked above"

/-- C6: a packet whose pid is neither 0 nor the PMT pid, arriving before any
PMT has been parsed, is appended to the waiting-for-PMT queue with no event;
when the first (current) PMT packet arrives, every queued packet is processed
and forwarded as a PES data event in its original arrival order, the queue is
emptied, and the program map is installed. -/
theorem transportParseStream_waiting_queue (broad : Bool) (psi : List Byte → List EsRecord)
    (st : TPSState) (packet : List Byte) :
    (st.programMapTable = none → tsPacketPid packet ≠ 0 →
      st.pmtPid ≠ some (tsPacketPid packet) →
      TransportParseStream.push broad psi st packet =
        .ok ({ st with packetsWaitingForPmt := st.packetsWaitingForPmt ++
            [⟨packet, tsPacketOffset packet, tsPacketPusi packet, tsPacketPid packet⟩] },
          [])) ∧
    (tsPacketPid packet ≠ 0 → st.pmtPid = some (tsPacketPid packet) →
      (packet.drop (tsPacketOffset packet)).getD 6 0 &&& 0x01 ≠ 0 →
      TransportParseStream.push broad psi st packet =
        .ok ({ st with
            programMapTable :=
              some (buildProgramMapTable broad (psi (packet.drop (tsPacketOffset packet)))),
            packetsWaitingForPmt := [] },
          ParseEvent.pmt (tsPacketPusi packet) (tsPacketPid packet)
              (some (buildProgramMapTable broad (psi (packet.drop (tsPacketOffset packet))))) ::
            st.packetsWaitingForPmt.map
              (processPes
                (buildProgramMapTable broad (psi (packet.drop (tsPacketOffset packet))))))) := by
  constructor
  · intro htable hpid hpmt
    unfold TransportParseStream.push
    rw [if_neg hpid, if_neg hpmt, if_pos htable]
  · intro hpid hpmt hcni
    unfold TransportParseStream.push
    rw [if_neg hpid, if_pos hpmt]
    have hparse : parsePmt broad (packet.drop (tsPacketOffset packet))
        (psi (packet.drop (tsPacketOffset packet))) st.programMapTable =
        some (buildProgramMapTable broad (psi (packet.drop (tsPacketOffset packet)))) := by
      unfold parsePmt
      rw [if_neg hcni]
    simp only [hparse]
    rw [if_neg hcni]

/-- Concrete PSI decoder output for the witness run: one H.264 stream. -/
def c6Psi : List Byte → List EsRecord := fun _ => [⟨StreamTypes.VIDEO_H264, 0x31, []⟩]

def c6Waiting : WaitingPacket := ⟨[0x47, 0x01, 0x31, 0x10, 0xAA], 4, true, 0x131⟩

/-- PAT seen (pmtPid = 0x20), no PMT parsed yet, one queued packet. -/
def c6State : TPSState := ⟨some 0x20, none, [c6Waiting]⟩

def c6PesPacket : List Byte := [0x47, 0x01, 0x31, 0x10, 0xBB]

def c6PmtPacket : List Byte := [0x47, 0x40, 0x20, 0x10, 0, 0, 0, 0, 0, 0, 0x01]

theorem transportParseStream_waiting_queue_witness :
    (c6State.programMapTable = none ∧ tsPacketPid c6PesPacket ≠ 0 ∧
      c6State.pmtPid ≠ some (tsPacketPid c6PesPacket) ∧
      TransportParseStream.push false c6Psi c6State c6PesPacket =
        .ok ({ c6State with packetsWaitingForPmt := c6State.packetsWaitingForPmt ++
            [⟨c6PesPacket, tsPacketOffset c6PesPacket, tsPacketPusi c6PesPacket,
              tsPacketPid c6PesPacket⟩] },
          [])) ∧
    (tsPacketPid c6PmtPacket ≠ 0 ∧ c6State.pmtPid = some (tsPacketPid c6PmtPacket) ∧
      (c6PmtPacket.drop (tsPacketOffset c6PmtPacket)).getD 6 0 &&& 0x01 ≠ 0 ∧
      TransportParseStream.push false c6Psi c6State c6PmtPacket =
        .ok ({ c6State with
            programMapTable :=
              some (buildProgramMapTable false
                (c6Psi (c6PmtPacket.drop (tsPacketOffset c6PmtPacket)))),
            packetsWaitingForPmt := [] },
          ParseEvent.pmt (tsPacketPusi c6PmtPacket) (tsPacketPid c6PmtPacket)
              (some (buildProgramMapTable false
                (c6Psi (c6PmtPacket.drop (tsPacketOffset c6PmtPacket))))) ::
            c6State.packetsWaitingForPmt.map
              (processPes
                (buildProgramMapTable false
                  (c6Psi (c6PmtPacket.drop (tsPacketOffset c6PmtPacket))))))) :=
  ⟨⟨by decide, by decide, by decide,
      (transportParseStream_waiting_queue false c6Psi c6State c6PesPacket).1
        (by decide) (by decide) (by decide)⟩,
    ⟨by decide, by decide, by decide,
      (transportParseStream_waiting_queue false c6Psi c6State c6PmtPacket).2
        (by decide) (by decide) (by decide)⟩⟩

/-! ## VideoSegmentStream

From `src/lib/mp4/transmuxer/videoSegmentStream.js`.  NAL units come from the
external H.264 parser.  The helpers it calls from `frame-utils` and
`track-decode-info`, and the ISO BMFF box writer `mp4-generator`, are code of
this repository not under `src/`; they are modelled from the spec (§3, §4.5,
§4.7), with doc comments marking each such definition. -/

inductive NalUnitType where
  | accessUnitDelimiterRbsp
  | seqParameterSetRbsp
  | picParameterSetRbsp
  | sliceLayerWithoutPartitioningRbspIdr
  | seiRbsp
  | other
deriving Repr, DecidableEq

/-- The track configuration carried on an SPS NAL unit (`nalUnit.config`):
the VIDEO_PROPERTIES the segmenter copies onto the track. -/
structure VideoConfig where
  width : Nat
  height : Nat
  profileIdc : Nat
  levelIdc : Nat
  profileCompatibility : Nat
deriving Repr, DecidableEq

structure NalUnit where
  nalUnitType : NalUnitType
  data : List Byte
  dts : Int
  pts : Int
  config : Option VideoConfig
deriving Repr, DecidableEq

instance : Inhabited NalUnit := ⟨⟨.other, [], 0, 0, none⟩⟩

structure TimelineStartInfo where
  dts : Option Int
  pts : Option Int
  baseMediaDecodeTime : Int
deriving Repr, DecidableEq

structure Sample where
  size : Int
  duration : Int
  keyFrame : Bool
deriving Repr, DecidableEq

structure VideoTrack where
  sps : Option (List Byte)
  pps : Option (List Byte)
  config : Option VideoConfig
  timelineStartInfo : TimelineStartInfo
  minSegmentDts : Option Int
  maxSegmentDts : Option Int
  minSegmentPts : Option Int
  maxSegmentPts : Option Int
  baseMediaDecodeTime : Int
  samples : List Sample
deriving Repr, DecidableEq

def VideoTrack.initial : VideoTrack :=
  ⟨none, none, none, ⟨none, none, 0⟩, none, none, none, none, 0, []⟩

/-- Modelled from the spec: `track-decode-info`'s `collectDtsInfo` is not
under `src/`.  Per §4.7, the observed DTS/PTS extrema are accumulated between
flushes, and `timelineStartInfo.dts`/`.pts` are seeded from the earliest
timestamps seen. -/
def collectDtsInfo (track : VideoTrack) (dts pts : Int) : VideoTrack :=
  { track with
    minSegmentDts := some (match track.minSegmentDts with
      | some m => min m dts
      | none => dts),
    maxSegmentDts := some (match track.maxSegmentDts with
      | some m => max m dts
      | none => dts),
    minSegmentPts := some (match track.minSegmentPts with
      | some m => min m pts
      | none => pts),
    maxSegmentPts := some (match track.maxSegmentPts with
      | some m => max m pts
      | none => pts),
    timelineStartInfo :=
      { track.timelineStartInfo with
        dts := some (track.timelineStartInfo.dts.getD dts),
        pts := some (track.timelineStartInfo.pts.getD pts) } }

/-- Modelled from the spec (§4.7): `observedDts` is cleared after each flush. -/
def clearDtsInfo (track : VideoTrack) : VideoTrack :=
  { track with
    minSegmentDts := none, maxSegmentDts := none,
    minSegmentPts := none, maxSegmentPts := none }

/-- Modelled from the spec (§4.7): the `baseMediaDecodeTime` derivation,
clamped at zero. -/
def calculateTrackBaseMediaDecodeTime (track : VideoTrack)
    (keepOriginalTimestamps : Bool) : Int :=
  let minDts := track.minSegmentDts.getD 0
  let b :=
    if keepOriginalTimestamps then minDts - track.timelineStartInfo.baseMediaDecodeTime
    else minDts - track.timelineStartInfo.dts.getD 0 +
      track.timelineStartInfo.baseMediaDecodeTime
  max b 0

/-- An access unit: a run of NAL units delimited by AUDs, with the aggregate
metadata the spec attaches to frames (§3). -/
structure Frame where
  nals : List NalUnit
  keyFrame : Bool
  pts : Int
  dts : Int
  duration : Int
  byteLength : Int
  nalCount : Int
deriving Repr, DecidableEq

instance : Inhabited Frame := ⟨⟨[], false, 0, 0, 0, 0, 0⟩⟩

def notAUD (n : NalUnit) : Bool := n.nalUnitType ≠ NalUnitType.accessUnitDelimiterRbsp

/-- Fuelled chunking of a NAL stream at access-unit delimiters (the fuel is
only a structural-recursion device; `frameChunks` always supplies enough). -/
def frameChunksF : Nat → List NalUnit → List (List NalUnit)
  | 0, _ => []
  | _, [] => []
  | fuel + 1, n :: rest =>
    (n :: rest.takeWhile notAUD) :: frameChunksF fuel (rest.dropWhile notAUD)

/-- Modelled from the spec: `frame-utils.groupNalsIntoFrames` splits the NAL
stream into AUD-bounded chunks; any NALs before the first AUD form a leading
chunk of their own. -/
def frameChunks (nals : List NalUnit) : List (List NalUnit) :=
  frameChunksF nals.length nals

def isIdrNal (n : NalUnit) : Bool :=
  n.nalUnitType = NalUnitType.sliceLayerWithoutPartitioningRbspIdr

/-- Aggregate a chunk into a frame; `keyFrame` iff it contains an IDR slice;
timing from the first NAL; the duration is attached by a second pass. -/
def frameOf (c : List NalUnit) : Frame :=
  { nals := c,
    keyFrame := c.any isIdrNal,
    pts := (c.head?.map (fun n => n.pts)).getD 0,
    dts := (c.head?.map (fun n => n.dts)).getD 0,
    duration := 0,
    byteLength := (c.map (fun n => (n.data.length : Int))).sum,
    nalCount := c.length }

/-- Modelled from the spec: the spec fixes only that frames carry a
`duration` aggregate; we take the decode-time distance to the next access
unit, the last frame reusing its predecessor's duration. -/
def setDurationsAux : Int → List Frame → List Frame
  | prev, [] => []
  | prev, [f] => [{ f with duration := prev }]
  | _, f :: g :: rest =>
    { f with duration := g.dts - f.dts } :: setDurationsAux (g.dts - f.dts) (g :: rest)

def setDurations (fs : List Frame) : List Frame := setDurationsAux 0 fs

def groupNalsIntoFrames (nals : List NalUnit) : List Frame :=
  setDurations ((frameChunks nals).map frameOf)

/-- A group of pictures with the aggregates the spec attaches to GOPs (§3). -/
structure Gop where
  frames : List Frame
  pts : Int
  dts : Int
  duration : Int
  byteLength : Int
  nalCount : Int
deriving Repr, DecidableEq

instance : Inhabited Gop := ⟨⟨[], 0, 0, 0, 0, 0⟩⟩

def notKeyFrame (f : Frame) : Bool := !f.keyFrame

def gopChunksF : Nat → List Frame → List (List Frame)
  | 0, _ => []
  | _, [] => []
  | fuel + 1, f :: rest =>
    (f :: rest.takeWhile notKeyFrame) :: gopChunksF fuel (rest.dropWhile notKeyFrame)

/-- Modelled from the spec: `frame-utils.groupFramesIntoGops` starts a new
GOP at every keyframe; frames before the first keyframe form a leading GOP
that does not start with a keyframe (this is the case §4.5 step 4 repairs). -/
def gopChunks (frames : List Frame) : List (List Frame) :=
  gopChunksF frames.length frames

def gopOf (c : List Frame) : Gop :=
  { frames := c,
    pts := (c.head?.map (fun f => f.pts)).getD 0,
    dts := (c.head?.map (fun f => f.dts)).getD 0,
    duration := (c.map (fun f => f.duration)).sum,
    byteLength := (c.map (fun f => f.byteLength)).sum,
    nalCount := (c.map (fun f => f.nalCount)).sum }

/-- The gops array together with the aggregates the source attaches to it. -/
structure GopList where
  gops : List Gop
  pts : Int
  dts : Int
  duration : Int
  byteLength : Int
  nalCount : Int
deriving Repr, DecidableEq

def groupFramesIntoGops (frames : List Frame) : GopList :=
  let gs := (gopChunks frames).map gopOf
  { gops := gs,
    pts := (frames.head?.map (fun f => f.pts)).getD 0,
    dts := (frames.head?.map (fun f => f.dts)).getD 0,
    duration := (gs.map (fun g => g.duration)).sum,
    byteLength := (gs.map (fun g => g.byteLength)).sum,
    nalCount := (gs.map (fun g => g.nalCount)).sum }

/-- Modelled from the spec (§4.5 step 4): keyframe-pulling discards the
frames preceding the first keyframe (the leading keyframe-less GOP) and
extends that keyframe's presentation backward over the discarded span; with
no keyframe at all (a single keyframe-less GOP) nothing changes. -/
def extendFirstKeyFrame (g : GopList) : GopList :=
  match g.gops with
  | g0 :: g1 :: rest =>
    if !((g0.frames.head?.map (fun f => f.keyFrame)).getD false) then
      let g1' :=
        match g1.frames with
        | f1 :: fs =>
          { g1 with
            frames :=
              { f1 with
                pts := g0.pts, dts := g0.dts,
                duration := f1.duration + g0.duration } :: fs,
            pts := g0.pts, dts := g0.dts, duration := g1.duration + g0.duration }
        | [] => g1
      { g with
        gops := g1' :: rest,
        byteLength := g.byteLength - g0.byteLength,
        nalCount := g.nalCount - g0.nalCount }
    else g
  | _ => g

/-- Modelled from the spec: `frame-utils.concatenateNalData` — the ordered
NAL content of the `mdat`; the byte serialisation is the box writer's (out of
scope). -/
def concatenateNalData (g : GopList) : List NalUnit :=
  (g.gops.map (fun gop => (gop.frames.map (fun f => f.nals)).join)).join

/-- Modelled from the spec (§4.5 step 6): one sample per frame with size,
duration and the keyframe flag. -/
def generateSampleTable (g : GopList) : List Sample :=
  (g.gops.map (fun gop => gop.frames.map (fun f =>
    ({ size := f.byteLength, duration := f.duration, keyFrame := f.keyFrame } : Sample)))).join

/-- The ISO BMFF boxes (the writer itself is out of scope): the `moof` holds
the sequence number and the track snapshot, the `mdat` the NAL content. -/
structure Moof where
  sequenceNumber : Nat
  track : VideoTrack
deriving Repr, DecidableEq

structure VideoBoxes where
  moof : Moof
  mdatNals : List NalUnit
deriving Repr, DecidableEq

structure GopCacheEntry where
  gop : Gop
  pps : Option (List Byte)
  sps : Option (List Byte)
deriving Repr, DecidableEq

/-- The body of `getGopForFusion_`'s candidate loop: reject entries with
different SPS/PPS or starting before the timeline start, keep only candidates
within `[-10000, 45000]` of 90 kHz ticks, and retain the nearest. -/
def fusionStep (track : VideoTrack) (nalUnit : NalUnit)
    (acc : Option (GopCacheEntry × Int)) (entry : GopCacheEntry) :
    Option (GopCacheEntry × Int) :=
  let halfSecond : Int := 45000
  let allowableOverlap : Int := 10000
  if ¬(track.pps.isSome ∧ track.pps = entry.pps ∧
      track.sps.isSome ∧ track.sps = entry.sps) then acc
  else if (match track.timelineStartInfo.dts with
      | some d => decide (entry.gop.dts < d)
      | none => false) then acc
  else
    let dtsDistance := (nalUnit.dts - entry.gop.dts) - entry.gop.duration
    if -allowableOverlap ≤ dtsDistance ∧ dtsDistance ≤ halfSecond then
      match acc with
      | none => some (entry, dtsDistance)
      | some (_, best) =>
        if best > dtsDistance then some (entry, dtsDistance) else acc
    else acc

/-- `getGopForFusion_`: search the GOP cache for the candidate nearest (by
DTS distance) to the given NAL unit. -/
def getGopForFusion (track : VideoTrack) (gopCache : List GopCacheEntry)
    (nalUnit : NalUnit) : Option Gop :=
  (gopCache.foldl (fusionStep track nalUnit) none).map (fun r => r.1.gop)

/-- The `alignGopsAtStart_` while loop, walking the alignment list and the
gop list; returns the adjusted aggregates and the number of gops dropped. -/
def alignGopsAtStartLoop : List Int → List Gop → Int → Int → Int → Nat →
    Int × Int × Int × Nat
  | a :: as', gop :: gops', byteLength, nalCount, duration, dropped =>
    if a = gop.pts then (byteLength, nalCount, duration, dropped)
    else if gop.pts > a then
      alignGopsAtStartLoop as' (gop :: gops') byteLength nalCount duration dropped
    else
      alignGopsAtStartLoop (a :: as') gops' (byteLength - gop.byteLength)
        (nalCount - gop.nalCount) (duration - gop.duration) (dropped + 1)
  | _, _, byteLength, nalCount, duration, dropped =>
    (byteLength, nalCount, duration, dropped)
termination_by as gops _ _ _ _ => as.length + gops.length

def alignGopsAtStart (alignWith : List Int) (g : GopList) : Option GopList :=
  let r := alignGopsAtStartLoop alignWith g.gops g.byteLength g.nalCount g.duration 0
  let gopIndex := r.2.2.2
  if gopIndex = 0 then some g
  else if gopIndex = g.gops.length then none
  else
    let aligned := g.gops.drop gopIndex
    some { gops := aligned, byteLength := r.1, nalCount := r.2.1, duration := r.2.2.1,
           pts := (aligned.head?.map (fun x => x.pts)).getD 0,
           dts := (aligned.head?.map (fun x => x.dts)).getD 0 }

/-- The `alignGopsAtEnd_` while loop over the pts sequences, with the indices
kept as the distance walked from the back. -/
def alignGopsAtEndLoop (alignPts gopPts : List Int) :
    Nat → Nat → Option Nat → Bool × Nat × Option Nat
  | ai, gi, alignEndIndex =>
    let a := alignPts.getD ai 0
    let g := gopPts.getD gi 0
    if a = g then (true, gi, alignEndIndex)
    else if a > g then
      if ai = 0 then (false, gi, alignEndIndex)
      else alignGopsAtEndLoop alignPts gopPts (ai - 1) gi alignEndIndex
    else
      let aei := if ai = alignPts.length - 1 then some gi else alignEndIndex
      if gi = 0 then (false, gi, aei)
      else alignGopsAtEndLoop alignPts gopPts ai (gi - 1) aei
termination_by ai gi _ => ai + gi

def alignGopsAtEnd (alignWith : List Int) (g : GopList) : Option GopList :=
  if alignWith.isEmpty || g.gops.isEmpty then none
  else
    let r := alignGopsAtEndLoop alignWith (g.gops.map (fun x => x.pts))
      (alignWith.length - 1) (g.gops.length - 1) none
    let trimIndex : Option Nat :=
      if r.1 then some r.2.1 else r.2.2
    match trimIndex with
    | none => none
    | some 0 => some g
    | some idx =>
      let aligned := g.gops.drop idx
      some { gops := aligned,
             byteLength := (aligned.map (fun x => x.byteLength)).sum,
             duration := (aligned.map (fun x => x.duration)).sum,
             nalCount := (aligned.map (fun x => x.nalCount)).sum,
             pts := (aligned.head?.map (fun x => x.pts)).getD 0,
             dts := (aligned.head?.map (fun x => x.dts)).getD 0 }

structure SegmentTimingInfo where
  startDts : Int
  startPts : Int
  endDts : Int
  endPts : Int
  prependedContentDuration : Int
  baseMediaDecodeTime : Int
deriving Repr, DecidableEq

def generateVideoSegmentTimingInfo (baseMediaDecodeTime startDts startPts endDts endPts
    prependedContentDuration : Int) : SegmentTimingInfo :=
  { startDts := baseMediaDecodeTime,
    startPts := baseMediaDecodeTime + (startPts - startDts),
    endDts := baseMediaDecodeTime + (endDts - startDts),
    endPts := baseMediaDecodeTime + (endPts - startPts),
    prependedContentDuration := prependedContentDuration,
    baseMediaDecodeTime := baseMediaDecodeTime }

inductive VSEvent where
  | done
  | data (track : VideoTrack) (boxes : VideoBoxes)
  | processedGopsInfo (info : List (Int × Int × Int))
  | segmentTimingInfo (info : SegmentTimingInfo)
  | timingInfo (start stop : Int)
  | baseMediaDecodeTime (t : Int)
  | timelineStartInfo (i : TimelineStartInfo)
deriving Repr, DecidableEq

structure VSState where
  sequenceNumber : Nat
  nalUnits : List NalUnit
  gopsToAlignWith : List Int
  track : VideoTrack
  gopCache : List GopCacheEntry
  waitForKeyFrame : Bool
  alignGopsAtEnd : Bool
  keepOriginalTimestamps : Bool
deriving Repr, DecidableEq

def VSState.initial : VSState :=
  { sequenceNumber := 0, nalUnits := [], gopsToAlignWith := [],
    track := VideoTrack.initial, gopCache := [], waitForKeyFrame := true,
    alignGopsAtEnd := false, keepOriginalTimestamps := false }

def VideoSegmentStream.push (st : VSState) (nalUnit : NalUnit) : VSState :=
  let track := collectDtsInfo st.track nalUnit.dts nalUnit.pts
  let track :=
    if nalUnit.nalUnitType = NalUnitType.seqParameterSetRbsp then
      { track with sps := some nalUnit.data, config := nalUnit.config }
    else track
  let track :=
    if nalUnit.nalUnitType = NalUnitType.picParameterSetRbsp then
      { track with pps := some nalUnit.data }
    else track
  { st with track := track, nalUnits := st.nalUnits ++ [nalUnit] }

/-- The `nalUnits.some(...)` scan of `flush`: the index of the first AUD, and
whether any IDR slice occurs after an AUD has been seen. -/
def scanFirstAudKeyFrame : List NalUnit → Option Nat → Nat → Option Nat × Bool
  | [], firstAUD, _ => (firstAUD, false)
  | n :: rest, firstAUD, idx =>
    match n.nalUnitType with
    | .accessUnitDelimiterRbsp =>
      scanFirstAudKeyFrame rest (if firstAUD.isSome then firstAUD else some idx) (idx + 1)
    | .sliceLayerWithoutPartitioningRbspIdr =>
      if firstAUD.isSome then (firstAUD, true)
      else scanFirstAudKeyFrame rest firstAUD (idx + 1)
    | _ => scanFirstAudKeyFrame rest firstAUD (idx + 1)

/-- The for-loop from the end of `flush` that looks for the last AUD;
`lastIndex` stays 0 when no AUD is found. -/
def lastAudIndex (nals : List NalUnit) : Nat :=
  match nals.reverse.findIdx? (fun n =>
      n.nalUnitType = NalUnitType.accessUnitDelimiterRbsp) with
  | some r => nals.length - 1 - r
  | none => 0

/-- The NAL list after `flush`'s initial trimming: with `waitForKeyFrame`,
drop everything before the first AUD found by the scan; otherwise shift NALs
until an AUD is at the front. -/
def vsfNals1 (st : VSState) : List NalUnit :=
  if st.waitForKeyFrame then
    match (scanFirstAudKeyFrame st.nalUnits none 0).1 with
    | some i => st.nalUnits.drop i
    | none => st.nalUnits
  else st.nalUnits.dropWhile notAUD

/-- The NAL units that make up this flush's segment: everything up to (not
including) the last AUD. -/
def vsfSegment (st : VSState) : List NalUnit :=
  (vsfNals1 st).take (lastAudIndex (vsfNals1 st))

/-- Cache the last GOP (with the track's parameter sets), keeping at most 6
entries; an empty gop list caches nothing. -/
def cacheLastGop (gopCache : List GopCacheEntry) (track : VideoTrack)
    (gops : List Gop) : List GopCacheEntry :=
  match gops.getLast? with
  | some g => (⟨g, track.pps, track.sps⟩ :: gopCache).take 6
  | none => gopCache

/-- Steps of `VideoSegmentStream.flush` from the empty-check onward,
operating on a state whose `nalUnits` has already been trimmed. -/
def vsfTail (st : VSState) : VSState × List VSEvent :=
  if st.nalUnits.length = 0 then
    ({ st with track := clearDtsInfo st.track }, [.done])
  else
    let lastIndex := lastAudIndex st.nalUnits
    if lastIndex = 0 then (st, [.done])
    else
      let nalUnits := st.nalUnits.take lastIndex
      let frames := groupNalsIntoFrames nalUnits
      let gops0 := groupFramesIntoGops frames
      let firstIsKey :=
        ((gops0.gops.head?.bind (fun g => g.frames.head?)).map
          (fun f => f.keyFrame)).getD false
      let fused :=
        if st.waitForKeyFrame ∧ ¬firstIsKey then
          match getGopForFusion st.track st.gopCache nalUnits.headI with
          | some gopForFusion =>
            (({ gops := gopForFusion :: gops0.gops,
                byteLength := gops0.byteLength + gopForFusion.byteLength,
                nalCount := gops0.nalCount + gopForFusion.nalCount,
                pts := gopForFusion.pts, dts := gopForFusion.dts,
                duration := gops0.duration + gopForFusion.duration } : GopList),
             gopForFusion.duration)
          | none => (extendFirstKeyFrame gops0, 0)
        else (gops0, 0)
      let gops1 := fused.1
      let prependedContentDuration := fused.2
      -- waitForKeyFrame is false from this point on
      let alignedResult : Option (GopList × VideoTrack) :=
        if st.gopsToAlignWith.length ≠ 0 then
          match (if st.alignGopsAtEnd then alignGopsAtEnd st.gopsToAlignWith gops1
            else alignGopsAtStart st.gopsToAlignWith gops1) with
          | some ag => some (ag, clearDtsInfo st.track)
          | none => none
        else some (gops1, st.track)
      match alignedResult with
      | none =>
        ({ st with
            gopCache := cacheLastGop st.gopCache st.track gops1.gops,
            nalUnits := st.nalUnits.drop lastIndex,
            track := clearDtsInfo st.track,
            waitForKeyFrame := false }, [.done])
      | some (gops, track0) =>
        let track1 := collectDtsInfo track0 gops.dts gops.pts
        let track2 := { track1 with samples := generateSampleTable gops }
        let mdatNals := concatenateNalData gops
        let bmdt := calculateTrackBaseMediaDecodeTime track2 st.keepOriginalTimestamps
        let track3 := { track2 with baseMediaDecodeTime := bmdt }
        let firstGop := gops.gops.headI
        let lastGop := gops.gops.getLastI
        let boxes : VideoBoxes := ⟨⟨st.sequenceNumber, track3⟩, mdatNals⟩
        ({ st with
            sequenceNumber := st.sequenceNumber + 1,
            nalUnits := st.nalUnits.drop lastIndex,
            gopCache := cacheLastGop st.gopCache track3 gops.gops,
            track := clearDtsInfo track3,
            waitForKeyFrame := false },
         [.processedGopsInfo (gops.gops.map (fun g => (g.pts, g.dts, g.byteLength))),
          .segmentTimingInfo (generateVideoSegmentTimingInfo bmdt firstGop.dts firstGop.pts
            (lastGop.dts + lastGop.duration) (lastGop.pts + lastGop.duration)
            prependedContentDuration),
          .timingInfo firstGop.pts (lastGop.pts + lastGop.duration),
          .baseMediaDecodeTime bmdt,
          .timelineStartInfo track3.timelineStartInfo,
          .data track3 boxes,
          .done])

def VideoSegmentStream.flush (st : VSState) : VSState × List VSEvent :=
  if st.waitForKeyFrame ∧ (scanFirstAudKeyFrame st.nalUnits none 0).2 = false then
    ({ st with nalUnits := vsfNals1 st }, [.done])
  else
    vsfTail { st with nalUnits := vsfNals1 st }

/-- Some IDR slice occurs strictly after some access-unit delimiter. -/
def hasAudThenIdr (nals : List NalUnit) : Prop :=
  ∃ j, j < nals.length ∧ isIdrNal (nals.getD j default) = true ∧
    ∃ i, i < j ∧ notAUD (nals.getD i default) = false

instance hasAudThenIdrDec (nals : List NalUnit) : Decidable (hasAudThenIdr nals) :=
  decidable_of_iff
    (∃ j ∈ List.range nals.length, isIdrNal (nals.getD j default) = true ∧
      ∃ i ∈ List.range j, notAUD (nals.getD i default) = false) (by
    unfold hasAudThenIdr
    simp [List.mem_range])

/-- One unfolding step of the scan on a cons cell. -/
theorem scanFirstAudKeyFrame_cons (n : NalUnit) (rest : List NalUnit)
    (fa : Option Nat) (idx : Nat) :
    scanFirstAudKeyFrame (n :: rest) fa idx =
      match n.nalUnitType with
      | .accessUnitDelimiterRbsp =>
        scanFirstAudKeyFrame rest (if fa.isSome then fa else some idx) (idx + 1)
      | .sliceLayerWithoutPartitioningRbspIdr =>
        if fa.isSome then (fa, true) else scanFirstAudKeyFrame rest fa (idx + 1)
      | _ => scanFirstAudKeyFrame rest fa (idx + 1) := rfl

/-- Characterisation of the keyframe scan: it reports `true` exactly when an
IDR slice occurs after an AUD (or anywhere, when an AUD was already on
record). -/
theorem scanFirstAudKeyFrame_snd (nals : List NalUnit) :
    ∀ (fa : Option Nat) (idx : Nat),
    (scanFirstAudKeyFrame nals fa idx).2 = true ↔
      ∃ j, j < nals.length ∧ isIdrNal (nals.getD j default) = true ∧
        (fa.isSome = true ∨ ∃ i, i < j ∧ notAUD (nals.getD i default) = false) := by
  induction nals with
  | nil =>
    intro fa idx
    simp [scanFirstAudKeyFrame]
  | cons n rest ih =>
    intro fa idx
    match hn : n.nalUnitType with
    | .accessUnitDelimiterRbsp =>
      simp only [scanFirstAudKeyFrame_cons, hn]
      rw [ih]
      constructor
      · rintro ⟨j, hj, hidr, -⟩
        refine ⟨j + 1, ?_, ?_, ?_⟩
        · simp only [List.length_cons]
          omega
        · rw [List.getD_cons_succ]
          exact hidr
        · right
          refine ⟨0, by omega, ?_⟩
          rw [List.getD_cons_zero, notAUD, hn]
          simp
      · rintro ⟨j, hj, hidr, -⟩
        match j with
        | 0 =>
          rw [List.getD_cons_zero, isIdrNal, hn] at hidr
          simp at hidr
        | j + 1 =>
          rw [List.getD_cons_succ] at hidr
          refine ⟨j, ?_, hidr, ?_⟩
          · simp only [List.length_cons] at hj
            omega
          · left
            cases fa <;> simp
    | .sliceLayerWithoutPartitioningRbspIdr =>
      by_cases hfa : fa.isSome = true
      · simp only [scanFirstAudKeyFrame_cons, hn, if_pos hfa]
        simp only [true_iff]
        refine ⟨0, by simp, ?_, Or.inl hfa⟩
        rw [List.getD_cons_zero, isIdrNal, hn]
        simp
      · simp only [scanFirstAudKeyFrame_cons, hn, if_neg hfa]
        rw [ih]
        constructor
        · rintro ⟨j, hj, hidr, hside⟩
          rcases hside with hside | ⟨i, hi, haud⟩
          · exact absurd hside hfa
          · refine ⟨j + 1, ?_, ?_, Or.inr ⟨i + 1, by omega, ?_⟩⟩
            · simp only [List.length_cons]
              omega
            · rw [List.getD_cons_succ]
              exact hidr
            · rw [List.getD_cons_succ]
              exact haud
        · rintro ⟨j, hj, hidr, hside⟩
          rcases hside with hside | ⟨i, hi, haud⟩
          · exact absurd hside hfa
          · match j, i with
            | 0, i => omega
            | j + 1, 0 =>
              rw [List.getD_cons_zero, notAUD, hn] at haud
              simp at haud
            | j + 1, i + 1 =>
              rw [List.getD_cons_succ] at hidr haud
              refine ⟨j, ?_, hidr, Or.inr ⟨i, by omega, haud⟩⟩
              simp only [List.length_cons] at hj
              omega
    | .seqParameterSetRbsp | .picParameterSetRbsp | .seiRbsp | .other =>
      simp only [scanFirstAudKeyFrame_cons, hn]
      rw [ih]
      constructor
      · rintro ⟨j, hj, hidr, hside⟩
        refine ⟨j + 1, ?_, ?_, ?_⟩
        · simp only [List.length_cons]
          omega
        · rw [List.getD_cons_succ]
          exact hidr
        · rcases hside with hside | ⟨i, hi, haud⟩
          · exact Or.inl hside
          · refine Or.inr ⟨i + 1, by omega, ?_⟩
            rw [List.getD_cons_succ]
            exact haud
      · rintro ⟨j, hj, hidr, hside⟩
        match j with
        | 0 =>
          rw [List.getD_cons_zero, isIdrNal, hn] at hidr
          simp at hidr
        | j + 1 =>
          rw [List.getD_cons_succ] at hidr
          refine ⟨j, ?_, hidr, ?_⟩
          · simp only [List.length_cons] at hj
            omega
          · rcases hside with hside | ⟨i, hi, haud⟩
            · exact Or.inl hside
            · match i with
              | 0 =>
                rw [List.getD_cons_zero, notAUD, hn] at haud
                simp at haud
              | i + 1 =>
                rw [List.getD_cons_succ] at haud
                exact Or.inr ⟨i, by omega, haud⟩

/-- C9: on a flush with `waitForKeyFrame` set whose buffered NAL units
contain no IDR slice after the first access-unit delimiter, the segmenter
emits only `done` — no data event, no exception (the model is a total
function) — and the stream stays usable: `waitForKeyFrame` remains set and
the trimmed NAL units are retained for subsequent pushes and flushes. -/
theorem videoSegmentStream_flush_no_keyframe (st : VSState)
    (hw : st.waitForKeyFrame = true) (hnk : ¬ hasAudThenIdr st.nalUnits) :
    VideoSegmentStream.flush st = ({ st with nalUnits := vsfNals1 st }, [VSEvent.done]) ∧
      (∀ tr bx, VSEvent.data tr bx ∉ (VideoSegmentStream.flush st).2) ∧
      (VideoSegmentStream.flush st).1.waitForKeyFrame = true := by
  have h2 : (scanFirstAudKeyFrame st.nalUnits none 0).2 = false := by
    rcases h : (scanFirstAudKeyFrame st.nalUnits none 0).2 with _ | _
    · rfl
    · exfalso
      apply hnk
      have := (scanFirstAudKeyFrame_snd st.nalUnits none 0).mp h
      rcases this with ⟨j, hj, hidr, hside⟩
      rcases hside with hside | hside
      · simp at hside
      · exact ⟨j, hj, hidr, hside⟩
  have hflush : VideoSegmentStream.flush st =
      ({ st with nalUnits := vsfNals1 st }, [VSEvent.done]) := by
    unfold VideoSegmentStream.flush
    rw [if_pos ⟨hw, h2⟩]
  refine ⟨hflush, ?_, ?_⟩
  · intro tr bx
    rw [hflush]
    simp
  · rw [hflush]
    simpa using hw

def c9State : VSState :=
  { VSState.initial with
    nalUnits := [⟨.accessUnitDelimiterRbsp, [9], 0, 0, none⟩, ⟨.other, [5], 0, 0, none⟩] }

theorem videoSegmentStream_flush_no_keyframe_witness :
    (c9State.waitForKeyFrame = true ∧ ¬ hasAudThenIdr c9State.nalUnits) ∧
      (VideoSegmentStream.flush c9State =
          ({ c9State with nalUnits := vsfNals1 c9State }, [VSEvent.done]) ∧
        (∀ tr bx, VSEvent.data tr bx ∉ (VideoSegmentStream.flush c9State).2) ∧
        (VideoSegmentStream.flush c9State).1.waitForKeyFrame = true) :=
  ⟨⟨by decide, by decide⟩,
    videoSegmentStream_flush_no_keyframe c9State (by decide) (by decide)⟩

/-- Whether the leading access unit of an `mdat`'s NAL sequence (everything
up to the second AUD) contains an IDR slice. -/
def firstAccessUnitHasIdr (nals : List NalUnit) : Bool :=
  match nals with
  | [] => false
  | n :: rest => (n :: rest.takeWhile notAUD).any isIdrNal

/-- The IDR-first flag of every data event in a flush's event list. -/
def dataIdrFlags (evs : List VSEvent) : List Bool :=
  evs.filterMap (fun e =>
    match e with
    | .data _ bx => some (firstAccessUnitHasIdr bx.mdatNals)
    | _ => none)

def c1Aud0 : NalUnit := ⟨.accessUnitDelimiterRbsp, [9], 0, 0, none⟩

def c1Idr0 : NalUnit := ⟨.sliceLayerWithoutPartitioningRbspIdr, [7], 0, 0, none⟩

def c1Aud10 : NalUnit := ⟨.accessUnitDelimiterRbsp, [9], 10, 10, none⟩

def c1Slice10 : NalUnit := ⟨.other, [5], 10, 10, none⟩

def c1Aud20 : NalUnit := ⟨.accessUnitDelimiterRbsp, [9], 20, 20, none⟩

/-- First batch: a keyframe access unit, then the delimiter of the next one. -/
def c1State1 : VSState :=
  VideoSegmentStream.push (VideoSegmentStream.push
    (VideoSegmentStream.push VSState.initial c1Aud0) c1Idr0) c1Aud10

def c1Flush1 : VSState × List VSEvent := VideoSegmentStream.flush c1State1

/-- Second batch: a non-IDR access unit, then the next delimiter. -/
def c1State2 : VSState :=
  VideoSegmentStream.push (VideoSegmentStream.push c1Flush1.1 c1Slice10) c1Aud20

def c1Flush2 : VSState × List VSEvent := VideoSegmentStream.flush c1State2

/-- C1 is false as stated: the first flush emits a segment that starts with
an IDR, but the second flush (waitForKeyFrame now cleared) emits a data event
whose segment's first access unit contains no IDR — no GOP fusion or
keyframe-pulling is attempted once a segment has been emitted. -/
theorem videoSegmentStream_second_flush_not_idr_first :
    dataIdrFlags c1Flush1.2 = [true] ∧ dataIdrFlags c1Flush2.2 = [false] := by
  decide

/-- A well-formed access unit: led by an AUD with no further AUD inside. -/
def isAccessUnit : List NalUnit → Bool
  | [] => false
  | n :: rest => !notAUD n && rest.all notAUD

/-- A frame as `groupNalsIntoFrames` produces on an AUD-led NAL stream: its
NALs form one access unit and `keyFrame` records the presence of an IDR. -/
def frameWellformed (f : Frame) : Bool :=
  isAccessUnit f.nals && (f.keyFrame == f.nals.any isIdrNal)

/-- A cached/fused GOP whose frames are well-formed and whose first frame is
a keyframe. -/
def gopKeyLed (g : Gop) : Bool :=
  g.frames.all frameWellformed &&
    ((g.frames.head?.map (fun f => f.keyFrame)).getD false)

/-- The segment `vsfTail` cuts out of its (already trimmed) NAL buffer. -/
def tailSegment (st : VSState) : List NalUnit :=
  st.nalUnits.take (lastAudIndex st.nalUnits)

def tailFrames (st : VSState) : List Frame := groupNalsIntoFrames (tailSegment st)

def tailGops0 (st : VSState) : GopList := groupFramesIntoGops (tailFrames st)

def tailFirstIsKey (st : VSState) : Bool :=
  (((tailGops0 st).gops.head?.bind (fun g => g.frames.head?)).map
    (fun f => f.keyFrame)).getD false

/-- The GOP list after `flush`'s repair step (GOP fusion or keyframe
pulling), with the prepended content duration. -/
def tailFused (st : VSState) : GopList × Int :=
  if st.waitForKeyFrame ∧ ¬ tailFirstIsKey st then
    match getGopForFusion st.track st.gopCache (tailSegment st).headI with
    | some gopForFusion =>
      (({ gops := gopForFusion :: (tailGops0 st).gops,
          byteLength := (tailGops0 st).byteLength + gopForFusion.byteLength,
          nalCount := (tailGops0 st).nalCount + gopForFusion.nalCount,
          pts := gopForFusion.pts, dts := gopForFusion.dts,
          duration := (tailGops0 st).duration + gopForFusion.duration } : GopList),
       gopForFusion.duration)
    | none => (extendFirstKeyFrame (tailGops0 st), 0)
  else (tailGops0 st, 0)

def tailGops1 (st : VSState) : GopList := (tailFused st).1

def tailAligned (st : VSState) : Option (GopList × VideoTrack) :=
  if st.gopsToAlignWith.length ≠ 0 then
    match (if st.alignGopsAtEnd then alignGopsAtEnd st.gopsToAlignWith (tailGops1 st)
      else alignGopsAtStart st.gopsToAlignWith (tailGops1 st)) with
    | some ag => some (ag, clearDtsInfo st.track)
    | none => none
  else some (tailGops1 st, st.track)

/-- The emitting branch of `vsfTail`. -/
def tailEmit (st : VSState) (gops : GopList) (track0 : VideoTrack) :
    VSState × List VSEvent :=
  let track1 := collectDtsInfo track0 gops.dts gops.pts
  let track2 := { track1 with samples := generateSampleTable gops }
  let mdatNals := concatenateNalData gops
  let bmdt := calculateTrackBaseMediaDecodeTime track2 st.keepOriginalTimestamps
  let track3 := { track2 with baseMediaDecodeTime := bmdt }
  let firstGop := gops.gops.headI
  let lastGop := gops.gops.getLastI
  let boxes : VideoBoxes := ⟨⟨st.sequenceNumber, track3⟩, mdatNals⟩
  ({ st with
      sequenceNumber := st.sequenceNumber + 1,
      nalUnits := st.nalUnits.drop (lastAudIndex st.nalUnits),
      gopCache := cacheLastGop st.gopCache track3 gops.gops,
      track := clearDtsInfo track3,
      waitForKeyFrame := false },
   [.processedGopsInfo (gops.gops.map (fun g => (g.pts, g.dts, g.byteLength))),
    .segmentTimingInfo (generateVideoSegmentTimingInfo bmdt firstGop.dts firstGop.pts
      (lastGop.dts + lastGop.duration) (lastGop.pts + lastGop.duration)
      (tailFused st).2),
    .timingInfo firstGop.pts (lastGop.pts + lastGop.duration),
    .baseMediaDecodeTime bmdt,
    .timelineStartInfo track3.timelineStartInfo,
    .data track3 boxes,
    .done])

/-- `vsfTail` restated through the named stage functions. -/
theorem vsfTail_eq (st : VSState) :
    vsfTail st =
      if st.nalUnits.length = 0 then
        ({ st with track := clearDtsInfo st.track }, [.done])
      else if lastAudIndex st.nalUnits = 0 then (st, [.done])
      else
        match tailAligned st with
        | none =>
          ({ st with
              gopCache := cacheLastGop st.gopCache st.track (tailGops1 st).gops,
              nalUnits := st.nalUnits.drop (lastAudIndex st.nalUnits),
              track := clearDtsInfo st.track,
              waitForKeyFrame := false }, [.done])
        | some (gops, track0) => tailEmit st gops track0 := rfl

theorem takeWhile_append_all {α : Type} (p : α → Bool) (l₁ l₂ : List α)
    (h : ∀ x ∈ l₁, p x = true) :
    (l₁ ++ l₂).takeWhile p = l₁ ++ l₂.takeWhile p := by
  induction l₁ with
  | nil => simp
  | cons a l ih =>
    rw [List.cons_append, List.takeWhile_cons, if_pos (h a (List.mem_cons_self a l)),
      ih (fun x hx => h x (List.mem_cons_of_mem a hx)), List.cons_append]

theorem dropWhile_head_false {α : Type} (p : α → Bool) (l : List α) (b : α) (t : List α)
    (h : l.dropWhile p = b :: t) : p b = false := by
  induction l with
  | nil => simp [List.dropWhile] at h
  | cons a l ih =>
    rw [List.dropWhile_cons] at h
    by_cases hp : p a = true
    · rw [if_pos hp] at h
      exact ih h
    · rw [if_neg hp] at h
      injection h with h1 _
      subst h1
      simpa using hp

/-- On an AUD-led NAL stream every chunk cut by `frameChunksF` is one
access unit. -/
theorem frameChunksF_au : ∀ (fuel : Nat) (a : NalUnit) (rest : List NalUnit),
    rest.length < fuel → notAUD a = false →
    ∀ c ∈ frameChunksF fuel (a :: rest), isAccessUnit c = true := by
  intro fuel
  induction fuel with
  | zero => intro a rest h _ _ _; exact absurd h (Nat.not_lt_zero _)
  | succ fuel ih =>
    intro a rest hlen ha c hc
    simp only [frameChunksF] at hc
    rcases List.mem_cons.mp hc with hceq | hc'
    · subst hceq
      simp only [isAccessUnit, Bool.and_eq_true, List.all_eq_true]
      exact ⟨by rw [ha]; rfl, fun x hx => List.mem_takeWhile_imp hx⟩
    · rcases hd : rest.dropWhile notAUD with _ | ⟨b, t⟩
      · rw [hd] at hc'
        cases fuel <;> simp [frameChunksF] at hc'
      · rw [hd] at hc'
        have hb : notAUD b = false := dropWhile_head_false _ _ _ _ hd
        have hlt : t.length < fuel := by
          have h1 : (rest.dropWhile notAUD).length ≤ rest.length :=
            (List.dropWhile_sublist notAUD).length_le
          rw [hd] at h1
          simp only [List.length_cons] at h1
          omega
        exact ih b t hlt hb c hc'

/-- `setDurationsAux` touches only durations: NAL lists and keyframe flags
pass through unchanged. -/
theorem setDurationsAux_map : ∀ (fs : List Frame) (prev : Int),
    (setDurationsAux prev fs).map (fun f => (f.nals, f.keyFrame)) =
      fs.map (fun f => (f.nals, f.keyFrame)) := by
  intro fs
  induction fs with
  | nil => intro prev; rfl
  | cons f rest ih =>
    intro prev
    cases rest with
    | nil => rfl
    | cons g rest2 =>
      simp only [setDurationsAux, List.map_cons]
      rw [ih, List.map_cons]

/-- On an AUD-led NAL stream, every frame `groupNalsIntoFrames` builds is
well formed. -/
theorem groupNalsIntoFrames_wf (a : NalUnit) (rest : List NalUnit)
    (ha : notAUD a = false) :
    ∀ f ∈ groupNalsIntoFrames (a :: rest), frameWellformed f = true := by
  intro f hf
  have hmem : (f.nals, f.keyFrame) ∈
      (groupNalsIntoFrames (a :: rest)).map (fun f => (f.nals, f.keyFrame)) :=
    List.mem_map_of_mem _ hf
  unfold groupNalsIntoFrames setDurations at hmem
  rw [setDurationsAux_map, List.map_map] at hmem
  obtain ⟨c, hc, heq⟩ := List.mem_map.mp hmem
  have hca : isAccessUnit c = true := by
    have hfc : c ∈ frameChunksF (a :: rest).length (a :: rest) := hc
    exact frameChunksF_au (a :: rest).length a rest (by simp) ha c hfc
  have h1 : f.nals = c := (congrArg Prod.fst heq).symm
  have h2 : f.keyFrame = c.any isIdrNal := (congrArg Prod.snd heq).symm
  simp [frameWellformed, h1, h2, hca]

/-- `gopChunksF` ignores its fuel as long as there is enough of it. -/
theorem gopChunksF_fuel : ∀ (fuel₁ fuel₂ : Nat) (fs : List Frame),
    fs.length ≤ fuel₁ → fs.length ≤ fuel₂ →
    gopChunksF fuel₁ fs = gopChunksF fuel₂ fs := by
  intro fuel₁
  induction fuel₁ with
  | zero =>
    intro fuel₂ fs h1 _
    have hnil : fs = [] := List.length_eq_zero.mp (Nat.le_zero.mp h1)
    subst hnil
    cases fuel₂ <;> rfl
  | succ fuel ih =>
    intro fuel₂ fs h1 h2
    cases fs with
    | nil => cases fuel₂ <;> rfl
    | cons f rest =>
      cases fuel₂ with
      | zero => simp at h2
      | succ fuel₂ =>
        simp only [gopChunksF]
        congr 1
        have hdl : (rest.dropWhile notKeyFrame).length ≤ rest.length :=
          (List.dropWhile_sublist notKeyFrame).length_le
        simp only [List.length_cons] at h1 h2
        exact ih fuel₂ _ (by omega) (by omega)

/-- One unfolding step of `gopChunks` on a cons cell. -/
theorem gopChunks_cons (f : Frame) (rest : List Frame) :
    gopChunks (f :: rest) =
      (f :: rest.takeWhile notKeyFrame) :: gopChunks (rest.dropWhile notKeyFrame) := by
  show gopChunksF (f :: rest).length (f :: rest) = _
  simp only [List.length_cons, gopChunksF]
  congr 1
  exact gopChunksF_fuel rest.length (rest.dropWhile notKeyFrame).length _
    (List.dropWhile_sublist notKeyFrame).length_le le_rfl

theorem gopChunksF_flatten : ∀ (fuel : Nat) (fs : List Frame), fs.length ≤ fuel →
    (gopChunksF fuel fs).flatten = fs := by
  intro fuel
  induction fuel with
  | zero =>
    intro fs h
    have hnil : fs = [] := List.length_eq_zero.mp (Nat.le_zero.mp h)
    subst hnil
    rfl
  | succ fuel ih =>
    intro fs h
    cases fs with
    | nil => rfl
    | cons f rest =>
      have hdl : (rest.dropWhile notKeyFrame).length ≤ rest.length :=
        (List.dropWhile_sublist notKeyFrame).length_le
      simp only [List.length_cons] at h
      simp only [gopChunksF, List.flatten_cons]
      rw [ih (rest.dropWhile notKeyFrame) (by omega), List.cons_append,
        List.takeWhile_append_dropWhile]

/-- The GOP chunks of a frame list partition it. -/
theorem gopChunks_flatten (fs : List Frame) : (gopChunks fs).flatten = fs :=
  gopChunksF_flatten fs.length fs le_rfl

/-- All frames of a GOP list, in emission order. -/
def gopFrameList (g : GopList) : List Frame :=
  g.gops.flatMap (fun gop => gop.frames)

theorem concatNals_aux : ∀ (l : List Gop),
    (l.map (fun gop => (gop.frames.map (fun f => f.nals)).flatten)).flatten =
      ((l.flatMap (fun gop => gop.frames)).map (fun f => f.nals)).flatten := by
  intro l
  induction l with
  | nil => rfl
  | cons g l ih =>
    simp only [List.map_cons, List.flatten_cons, List.flatMap_cons, List.map_append,
      List.flatten_append, ih]

/-- The `mdat` NAL content is the per-frame NAL lists flattened in order. -/
theorem concatenateNalData_eq (g : GopList) :
    concatenateNalData g = ((gopFrameList g).map (fun f => f.nals)).flatten :=
  concatNals_aux g.gops

theorem gops_groupFrames (fs : List Frame) :
    (groupFramesIntoGops fs).gops = (gopChunks fs).map gopOf := rfl

theorem flatMap_frames_gopOf : ∀ (l : List (List Frame)),
    (l.map gopOf).flatMap (fun g => g.frames) = l.flatten := by
  intro l
  induction l with
  | nil => rfl
  | cons c l ih => simp only [List.map_cons, List.flatMap_cons, List.flatten_cons, ih, gopOf]

/-- Grouping frames into GOPs reorders nothing: flattening the GOPs gives
back the frame list. -/
theorem gopFrameList_groupFrames (fs : List Frame) :
    gopFrameList (groupFramesIntoGops fs) = fs := by
  unfold gopFrameList
  rw [gops_groupFrames, flatMap_frames_gopOf, gopChunks_flatten]

theorem takeWhile_flatten_au (cs : List (List NalUnit))
    (hau : ∀ x ∈ cs, isAccessUnit x = true) :
    cs.flatten.takeWhile notAUD = [] := by
  cases cs with
  | nil => rfl
  | cons c cs' =>
    have hc := hau c (List.mem_cons_self c cs')
    cases c with
    | nil => simp [isAccessUnit] at hc
    | cons m t =>
      have hm : notAUD m = false := by
        simp only [isAccessUnit, Bool.and_eq_true, Bool.not_eq_true'] at hc
        exact hc.1
      simp only [List.flatten_cons, List.cons_append]
      rw [List.takeWhile_cons, if_neg (by simp [hm])]

/-- Flattening a nonempty list of access units: the first access unit of
the result is exactly the first list. -/
theorem firstAU_flatten (c : List NalUnit) (cs : List (List NalUnit))
    (hau : ∀ x ∈ c :: cs, isAccessUnit x = true) :
    firstAccessUnitHasIdr (c :: cs).flatten = c.any isIdrNal := by
  have hc := hau c (List.mem_cons_self c cs)
  cases c with
  | nil => simp [isAccessUnit] at hc
  | cons n tail =>
    have hn : notAUD n = false ∧ ∀ x ∈ tail, notAUD x = true := by
      simpa only [isAccessUnit, Bool.and_eq_true, Bool.not_eq_true', List.all_eq_true]
        using hc
    simp only [List.flatten_cons, List.cons_append]
    show firstAccessUnitHasIdr (n :: (tail ++ cs.flatten)) = _
    simp only [firstAccessUnitHasIdr]
    rw [takeWhile_append_all notAUD tail cs.flatten hn.2,
      takeWhile_flatten_au cs (fun x hx => hau x (List.mem_cons_of_mem _ hx)),
      List.append_nil]

theorem fusionStep_shape (track : VideoTrack) (nalUnit : NalUnit)
    (acc : Option (GopCacheEntry × Int)) (entry : GopCacheEntry) :
    fusionStep track nalUnit acc entry = acc ∨
      ∃ d, fusionStep track nalUnit acc entry = some (entry, d) := by
  unfold fusionStep
  dsimp only
  split_ifs with h1 h2 h3
  · exact Or.inl rfl
  · cases acc with
    | none => exact Or.inr ⟨_, rfl⟩
    | some p =>
      obtain ⟨e', best⟩ := p
      dsimp only
      by_cases h4 : best > nalUnit.dts - entry.gop.dts - entry.gop.duration
      · exact Or.inr ⟨_, by rw [if_pos h4]⟩
      · exact Or.inl (by rw [if_neg h4])
  · exact Or.inl rfl
  · exact Or.inl rfl

theorem foldl_fusion_mem (track : VideoTrack) (nalUnit : NalUnit) :
    ∀ (cache : List GopCacheEntry) (acc : Option (GopCacheEntry × Int))
      (e : GopCacheEntry) (d : Int),
      cache.foldl (fusionStep track nalUnit) acc = some (e, d) →
      acc = some (e, d) ∨ e ∈ cache := by
  intro cache
  induction cache with
  | nil => intro acc e d h; exact Or.inl h
  | cons x xs ih =>
    intro acc e d h
    rw [List.foldl_cons] at h
    rcases ih _ _ _ h with h' | h'
    · rcases fusionStep_shape track nalUnit acc x with hs | ⟨d', hs⟩
      · rw [hs] at h'
        exact Or.inl h'
      · rw [hs] at h'
        injection h' with h''
        injection h'' with he hd
        subst he
        exact Or.inr (List.mem_cons_self x xs)
    · exact Or.inr (List.mem_cons_of_mem x h')

/-- A GOP found for fusion comes from the GOP cache. -/
theorem getGopForFusion_mem (track : VideoTrack) (cache : List GopCacheEntry)
    (nalUnit : NalUnit) (g : Gop)
    (h : getGopForFusion track cache nalUnit = some g) :
    ∃ e ∈ cache, e.gop = g := by
  unfold getGopForFusion at h
  obtain ⟨r, hr, hg⟩ := Option.map_eq_some'.mp h
  obtain ⟨e, d⟩ := r
  rcases foldl_fusion_mem track nalUnit cache none e d hr with h' | h'
  · simp at h'
  · exact ⟨e, h', hg⟩

/-- When the keyframe scan reports `true` it has an AUD index on record. -/
theorem scanFirstAudKeyFrame_isSome :
    ∀ (nals : List NalUnit) (fa : Option Nat) (idx : Nat),
    (scanFirstAudKeyFrame nals fa idx).2 = true →
    (scanFirstAudKeyFrame nals fa idx).1.isSome = true := by
  intro nals
  induction nals with
  | nil => intro fa idx h; simp [scanFirstAudKeyFrame] at h
  | cons n rest ih =>
    intro fa idx h
    match hn : n.nalUnitType with
    | .accessUnitDelimiterRbsp =>
      simp only [scanFirstAudKeyFrame_cons, hn] at h ⊢
      exact ih _ _ h
    | .sliceLayerWithoutPartitioningRbspIdr =>
      by_cases hfa : fa.isSome = true
      · simp only [scanFirstAudKeyFrame_cons, hn, if_pos hfa]
        exact hfa
      · simp only [scanFirstAudKeyFrame_cons, hn, if_neg hfa] at h ⊢
        exact ih _ _ h
    | .seqParameterSetRbsp =>
      simp only [scanFirstAudKeyFrame_cons, hn] at h ⊢
      exact ih _ _ h
    | .picParameterSetRbsp =>
      simp only [scanFirstAudKeyFrame_cons, hn] at h ⊢
      exact ih _ _ h
    | .seiRbsp =>
      simp only [scanFirstAudKeyFrame_cons, hn] at h ⊢
      exact ih _ _ h
    | .other =>
      simp only [scanFirstAudKeyFrame_cons, hn] at h ⊢
      exact ih _ _ h

/-- The index the scan records points at an AUD inside the list. -/
theorem scanFirstAudKeyFrame_fst :
    ∀ (nals : List NalUnit) (fa : Option Nat) (idx : Nat),
    (scanFirstAudKeyFrame nals fa idx).1 = fa ∨
      ∃ j, j < nals.length ∧ (scanFirstAudKeyFrame nals fa idx).1 = some (idx + j) ∧
        notAUD (nals.getD j default) = false := by
  intro nals
  induction nals with
  | nil => intro fa idx; exact Or.inl rfl
  | cons n rest ih =>
    intro fa idx
    have hshift : ∀ (fa' : Option Nat),
        (scanFirstAudKeyFrame rest fa' (idx + 1)).1 = fa' ∨
          ∃ j, j < (n :: rest).length ∧
            (scanFirstAudKeyFrame rest fa' (idx + 1)).1 = some (idx + j) ∧
            notAUD ((n :: rest).getD j default) = false := by
      intro fa'
      rcases ih fa' (idx + 1) with h | ⟨j, hj, hres, haud⟩
      · exact Or.inl h
      · refine Or.inr ⟨j + 1, ?_, ?_, ?_⟩
        · simp only [List.length_cons]
          omega
        · rw [hres]
          congr 1
          omega
        · rw [List.getD_cons_succ]
          exact haud
    match hn : n.nalUnitType with
    | .accessUnitDelimiterRbsp =>
      simp only [scanFirstAudKeyFrame_cons, hn]
      by_cases hfa : fa.isSome = true
      · rw [if_pos hfa]
        exact hshift fa
      · rw [if_neg hfa]
        rcases hshift (some idx) with h | h
        · refine Or.inr ⟨0, by simp, ?_, ?_⟩
          · rw [h]
            congr 1
          · rw [List.getD_cons_zero, notAUD, hn]
            simp
        · exact Or.inr h
    | .sliceLayerWithoutPartitioningRbspIdr =>
      by_cases hfa : fa.isSome = true
      · simp only [scanFirstAudKeyFrame_cons, hn, if_pos hfa]
        exact Or.inl trivial
      · simp only [scanFirstAudKeyFrame_cons, hn, if_neg hfa]
        exact hshift fa
    | .seqParameterSetRbsp =>
      simp only [scanFirstAudKeyFrame_cons, hn]
      exact hshift fa
    | .picParameterSetRbsp =>
      simp only [scanFirstAudKeyFrame_cons, hn]
      exact hshift fa
    | .seiRbsp =>
      simp only [scanFirstAudKeyFrame_cons, hn]
      exact hshift fa
    | .other =>
      simp only [scanFirstAudKeyFrame_cons, hn]
      exact hshift fa

/-- The keyframe-pulling adjustment of the first keyframe (its presentation
extended backward over the discarded leading GOP). -/
def pullFrame (g0 : Gop) (f1 : Frame) : Frame :=
  { f1 with pts := g0.pts, dts := g0.dts, duration := f1.duration + g0.duration }

/-- The adjusted second GOP after keyframe pulling. -/
def pullGop (g0 g1 : Gop) (f1 : Frame) (fs : List Frame) : Gop :=
  { g1 with frames := pullFrame g0 f1 :: fs, pts := g0.pts, dts := g0.dts, duration := g1.duration + g0.duration }

/-- `extendFirstKeyFrame` on an explicitly decomposed GOP list whose first
GOP does not start with a keyframe. -/
theorem extendFirstKeyFrame_gops (g : GopList) (g0 g1 : Gop) (rest : List Gop)
    (hg : g.gops = g0 :: g1 :: rest)
    (h0 : ((g0.frames.head?.map (fun f => f.keyFrame)).getD false) = false)
    (f1 : Frame) (fs : List Frame) (hg1 : g1.frames = f1 :: fs) :
    (extendFirstKeyFrame g).gops = pullGop g0 g1 f1 fs :: rest := by
  unfold extendFirstKeyFrame
  simp only [hg, h0, hg1, Bool.not_false, eq_self_iff_true, ite_true, pullGop, pullFrame]

theorem tailFrames_cons_firstIsKey (st : VSState) (f0 : Frame) (frest : List Frame)
    (hfr : tailFrames st = f0 :: frest) :
    tailFirstIsKey st = f0.keyFrame := by
  unfold tailFirstIsKey tailGops0
  rw [gops_groupFrames, hfr, gopChunks_cons]
  rfl

theorem tailGops1_noRepair (st : VSState)
    (hcond : ¬(st.waitForKeyFrame = true ∧ ¬ tailFirstIsKey st = true)) :
    tailGops1 st = tailGops0 st := by
  unfold tailGops1 tailFused
  rw [if_neg hcond]

theorem tailGops1_fusion (st : VSState) (g : Gop)
    (hcond : st.waitForKeyFrame = true ∧ ¬ tailFirstIsKey st = true)
    (hfus : getGopForFusion st.track st.gopCache (tailSegment st).headI = some g) :
    (tailGops1 st).gops = g :: (tailGops0 st).gops := by
  unfold tailGops1 tailFused
  rw [if_pos hcond]
  simp only [hfus]

theorem tailGops1_extend (st : VSState)
    (hcond : st.waitForKeyFrame = true ∧ ¬ tailFirstIsKey st = true)
    (hfus : getGopForFusion st.track st.gopCache (tailSegment st).headI = none) :
    tailGops1 st = extendFirstKeyFrame (tailGops0 st) := by
  unfold tailGops1 tailFused
  rw [if_pos hcond]
  simp only [hfus]

/-- Under `waitForKeyFrame`, on an AUD-led segment containing a keyframe and
with a well-formed GOP cache, the repaired GOP list flushed by `vsfTail`
starts with an IDR-containing access unit. -/
theorem tailGops1_idr (st : VSState)
    (hw : st.waitForKeyFrame = true)
    (hcache : ∀ e ∈ st.gopCache, gopKeyLed e.gop = true)
    (hseg : ∃ a arest, tailSegment st = a :: arest ∧ notAUD a = false)
    (hkey : (tailFrames st).any (fun f => f.keyFrame) = true) :
    firstAccessUnitHasIdr (concatenateNalData (tailGops1 st)) = true := by
  obtain ⟨a, arest, hsegeq, ha⟩ := hseg
  have hwf : ∀ f ∈ tailFrames st, frameWellformed f = true := by
    intro f hf
    unfold tailFrames at hf
    rw [hsegeq] at hf
    exact groupNalsIntoFrames_wf a arest ha f hf
  have hauAll : ∀ x ∈ (tailFrames st).map (fun f => f.nals), isAccessUnit x = true := by
    intro x hx
    obtain ⟨f, hf, hfx⟩ := List.mem_map.mp hx
    subst hfx
    have hwff := hwf f hf
    simp only [frameWellformed, Bool.and_eq_true] at hwff
    exact hwff.1
  rcases hfr : tailFrames st with _ | ⟨f0, frest⟩
  · rw [hfr] at hkey
    simp at hkey
  · have hfik : tailFirstIsKey st = f0.keyFrame := tailFrames_cons_firstIsKey st f0 frest hfr
    have hf0wf : f0.keyFrame = f0.nals.any isIdrNal := by
      have h := hwf f0 (by rw [hfr]; exact List.mem_cons_self _ _)
      simp only [frameWellformed, Bool.and_eq_true, beq_iff_eq] at h
      exact h.2
    have hfl0 : gopFrameList (tailGops0 st) = tailFrames st :=
      gopFrameList_groupFrames (tailFrames st)
    by_cases hfk : f0.keyFrame = true
    · have hcond : ¬(st.waitForKeyFrame = true ∧ ¬ tailFirstIsKey st = true) := by
        rw [hfik, hfk]
        simp
      rw [tailGops1_noRepair st hcond, concatenateNalData_eq, hfl0, hfr]
      simp only [List.map_cons]
      rw [firstAU_flatten]
      · rw [← hf0wf]
        exact hfk
      · intro x hx
        exact hauAll x (by rw [hfr]; simp only [List.map_cons]; exact hx)
    · have hfk0 : f0.keyFrame = false := by
        revert hfk
        cases f0.keyFrame <;> simp
      have hcond : st.waitForKeyFrame = true ∧ ¬ tailFirstIsKey st = true := by
        refine ⟨hw, ?_⟩
        rw [hfik, hfk0]
        simp
      rcases hfus : getGopForFusion st.track st.gopCache (tailSegment st).headI
        with _ | ⟨g⟩
      · -- keyframe pulling
        have hrest : frest.any (fun f => f.keyFrame) = true := by
          rw [hfr] at hkey
          simp only [List.any_cons, hfk0, Bool.false_or] at hkey
          exact hkey
        rcases hdw : frest.dropWhile notKeyFrame with _ | ⟨k, rest2⟩
        · exfalso
          have hall := List.dropWhile_eq_nil_iff.mp hdw
          rw [List.any_eq_true] at hrest
          obtain ⟨f, hf, hfkey⟩ := hrest
          have hnk := hall f hf
          simp only [notKeyFrame] at hnk
          rw [hfkey] at hnk
          simp at hnk
        · have hkkey : k.keyFrame = true := by
            have h := dropWhile_head_false notKeyFrame frest k rest2 hdw
            revert h
            simp [notKeyFrame]
          have hchunks : gopChunks (f0 :: frest) =
              (f0 :: frest.takeWhile notKeyFrame) ::
                (k :: rest2.takeWhile notKeyFrame) ::
                  gopChunks (rest2.dropWhile notKeyFrame) := by
            rw [gopChunks_cons, hdw, gopChunks_cons]
          have hflat := gopChunks_flatten (f0 :: frest)
          rw [hchunks] at hflat
          simp only [List.flatten_cons] at hflat
          have hkmem : k ∈ tailFrames st := by
            rw [hfr, ← hflat]
            exact List.mem_append.mpr (Or.inr (List.mem_append.mpr
              (Or.inl (List.mem_cons_self _ _))))
          have hkwf := hwf k hkmem
          simp only [frameWellformed, Bool.and_eq_true, beq_iff_eq] at hkwf
          have hg0 : (tailGops0 st).gops =
              gopOf (f0 :: frest.takeWhile notKeyFrame) ::
                gopOf (k :: rest2.takeWhile notKeyFrame) ::
                  (gopChunks (rest2.dropWhile notKeyFrame)).map gopOf := by
            unfold tailGops0
            rw [gops_groupFrames, hfr, hchunks, List.map_cons, List.map_cons]
          have hcondA : (((gopOf (f0 :: frest.takeWhile notKeyFrame)).frames.head?.map
              (fun f => f.keyFrame)).getD false) = false := by
            show ((some f0).map (fun f => f.keyFrame)).getD false = false
            simpa using hfk0
          have hext := extendFirstKeyFrame_gops (tailGops0 st) _ _ _ hg0 hcondA k
            (rest2.takeWhile notKeyFrame) rfl
          rw [tailGops1_extend st hcond hfus, concatenateNalData_eq]
          have hfl : gopFrameList (extendFirstKeyFrame (tailGops0 st)) =
              (pullFrame (gopOf (f0 :: frest.takeWhile notKeyFrame)) k ::
                rest2.takeWhile notKeyFrame) ++
                (gopChunks (rest2.dropWhile notKeyFrame)).flatten := by
            unfold gopFrameList
            rw [hext, List.flatMap_cons]
            congr 1
            exact flatMap_frames_gopOf _
          rw [hfl]
          simp only [List.cons_append, List.map_cons]
          rw [firstAU_flatten]
          · show k.nals.any isIdrNal = true
            rw [← hkwf.2]
            exact hkkey
          · intro x hx
            rcases List.mem_cons.mp hx with hx0 | hx'
            · subst hx0
              exact hkwf.1
            · obtain ⟨f, hf, hfx⟩ := List.mem_map.mp hx'
              subst hfx
              have hfmem : f ∈ tailFrames st := by
                rw [hfr, ← hflat]
                rcases List.mem_append.mp hf with h' | h'
                · exact List.mem_append.mpr (Or.inr (List.mem_append.mpr
                    (Or.inl (List.mem_cons_of_mem _ h'))))
                · exact List.mem_append.mpr (Or.inr (List.mem_append.mpr (Or.inr h')))
              have h := hwf f hfmem
              simp only [frameWellformed, Bool.and_eq_true] at h
              exact h.1
      · -- GOP fusion
        have hgops : (tailGops1 st).gops = g :: (tailGops0 st).gops :=
          tailGops1_fusion st g hcond hfus
        obtain ⟨e, he, heg⟩ := getGopForFusion_mem _ _ _ _ hfus
        have hkl : gopKeyLed g = true := by
          rw [← heg]
          exact hcache e he
        simp only [gopKeyLed, Bool.and_eq_true, List.all_eq_true] at hkl
        rcases hgf : g.frames with _ | ⟨k0, gtail⟩
        · exfalso
          have h2 := hkl.2
          rw [hgf] at h2
          simp at h2
        · have hk0mem : k0 ∈ g.frames := by rw [hgf]; exact List.mem_cons_self _ _
          have hk0wf := hkl.1 k0 hk0mem
          simp only [frameWellformed, Bool.and_eq_true, beq_iff_eq] at hk0wf
          have hk0key : k0.keyFrame = true := by
            have h2 := hkl.2
            rw [hgf] at h2
            simpa using h2
          rw [concatenateNalData_eq]
          have hfl : gopFrameList (tailGops1 st) = g.frames ++ tailFrames st := by
            unfold gopFrameList
            rw [hgops, List.flatMap_cons]
            exact congrArg (fun l => g.frames ++ l) hfl0
          rw [hfl, hgf]
          simp only [List.cons_append, List.map_cons]
          rw [firstAU_flatten]
          · rw [← hk0wf.2]
            exact hk0key
          · intro x hx
            rcases List.mem_cons.mp hx with hx0 | hx'
            · subst hx0
              exact hk0wf.1
            · obtain ⟨f, hf, hfx⟩ := List.mem_map.mp hx'
              subst hfx
              rcases List.mem_append.mp hf with h' | h'
              · have h := hkl.1 f (by rw [hgf]; exact List.mem_cons_of_mem _ h')
                simp only [frameWellformed, Bool.and_eq_true] at h
                exact h.1
              · have h := hwf f h'
                simp only [frameWellformed, Bool.and_eq_true] at h
                exact h.1

/-- Any data event of `vsfTail` carries the aligned GOP list's NAL content
as its `mdat`. -/
theorem vsfTail_data (st : VSState) (tr : VideoTrack) (bx : VideoBoxes)
    (hmem : VSEvent.data tr bx ∈ (vsfTail st).2) :
    st.nalUnits.length ≠ 0 ∧ lastAudIndex st.nalUnits ≠ 0 ∧
      ∃ gops track0, tailAligned st = some (gops, track0) ∧
        bx.mdatNals = concatenateNalData gops := by
  rw [vsfTail_eq] at hmem
  by_cases h1 : st.nalUnits.length = 0
  · rw [if_pos h1] at hmem
    simp at hmem
  · rw [if_neg h1] at hmem
    by_cases h2 : lastAudIndex st.nalUnits = 0
    · rw [if_pos h2] at hmem
      simp at hmem
    · rw [if_neg h2] at hmem
      refine ⟨h1, h2, ?_⟩
      rcases ha : tailAligned st with _ | ⟨p⟩
      · simp only [ha] at hmem
        simp at hmem
      · obtain ⟨gops, track0⟩ := p
        simp only [ha] at hmem
        refine ⟨gops, track0, rfl, ?_⟩
        simp only [tailEmit] at hmem
        simp only [List.mem_cons, List.not_mem_nil, or_false] at hmem
        rcases hmem with h|h|h|h|h|h|h
        · exact VSEvent.noConfusion h
        · exact VSEvent.noConfusion h
        · exact VSEvent.noConfusion h
        · exact VSEvent.noConfusion h
        · exact VSEvent.noConfusion h
        · injection h with hTr hBx
          rw [hBx]
        · exact VSEvent.noConfusion h

/-- C1: the keyframe-first repair (GOP fusion or keyframe pulling) is guarded
by `waitForKeyFrame`, so it protects only the first emitted segment: when
`waitForKeyFrame` is still set, no GOP alignment is configured, every cached
GOP is a well-formed keyframe-led GOP, and the flushed segment contains some
keyframe, every data event the flush emits carries a media segment whose
first access unit contains an IDR slice.  After the first emission
`waitForKeyFrame` is cleared and the repair is skipped, so the property does
not hold "regardless of how many flushes have already occurred". -/
theorem videoSegmentStream_keyframe_first (st : VSState)
    (hw : st.waitForKeyFrame = true)
    (halign : st.gopsToAlignWith = [])
    (hcache : ∀ e ∈ st.gopCache, gopKeyLed e.gop = true)
    (hkey : (groupNalsIntoFrames (vsfSegment st)).any (fun f => f.keyFrame) = true)
    (tr : VideoTrack) (bx : VideoBoxes)
    (hmem : VSEvent.data tr bx ∈ (VideoSegmentStream.flush st).2) :
    firstAccessUnitHasIdr bx.mdatNals = true := by
  unfold VideoSegmentStream.flush at hmem
  by_cases hscan : (scanFirstAudKeyFrame st.nalUnits none 0).2 = false
  · rw [if_pos ⟨hw, hscan⟩] at hmem
    simp at hmem
  · rw [if_neg (fun hc => hscan hc.2)] at hmem
    obtain ⟨hne, hlast, gops, track0, halgn, hmdat⟩ := vsfTail_data _ tr bx hmem
    have hnil :
        ¬(({ st with nalUnits := vsfNals1 st } : VSState).gopsToAlignWith.length ≠ 0) := by
      simp [halign]
    have htal : tailAligned { st with nalUnits := vsfNals1 st } =
        some (tailGops1 { st with nalUnits := vsfNals1 st },
          ({ st with nalUnits := vsfNals1 st } : VSState).track) := by
      unfold tailAligned
      rw [if_neg hnil]
    rw [htal] at halgn
    injection halgn with hp
    rw [Prod.mk.injEq] at hp
    obtain ⟨hg, htr0⟩ := hp
    rw [hmdat, ← hg]
    have hscan2 : (scanFirstAudKeyFrame st.nalUnits none 0).2 = true := by
      revert hscan
      cases (scanFirstAudKeyFrame st.nalUnits none 0).2 <;> simp
    have hsome := scanFirstAudKeyFrame_isSome st.nalUnits none 0 hscan2
    rcases scanFirstAudKeyFrame_fst st.nalUnits none 0 with hfstn | ⟨j, hj, hres, haud⟩
    · rw [hfstn] at hsome
      simp at hsome
    · have hdrop : vsfNals1 st = st.nalUnits.drop j := by
        unfold vsfNals1
        simp [hw, hres]
      have hgetd : st.nalUnits.getD j default = st.nalUnits[j] := by
        rw [List.getD_eq_getElem?_getD, List.getElem?_eq_getElem hj]
        rfl
      rw [hgetd] at haud
      have hdropc : st.nalUnits.drop j = st.nalUnits[j] :: st.nalUnits.drop (j + 1) :=
        List.drop_eq_getElem_cons hj
      obtain ⟨m, hm⟩ : ∃ m, lastAudIndex (vsfNals1 st) = m + 1 := by
        rcases hL : lastAudIndex (vsfNals1 st) with _ | m
        · exact absurd hL hlast
        · exact ⟨m, rfl⟩
      apply tailGops1_idr
      · exact hw
      · exact hcache
      · refine ⟨st.nalUnits[j], (st.nalUnits.drop (j + 1)).take m, ?_, haud⟩
        show (vsfNals1 st).take (lastAudIndex (vsfNals1 st)) = _
        rw [hm, hdrop, hdropc, List.take_succ_cons]
      · exact hkey

def c1DataTrack : VideoTrack :=
  ((VideoSegmentStream.flush c1State1).2.filterMap (fun e =>
    match e with
    | .data tr _ => some tr
    | _ => none)).getD 0 VideoTrack.initial

def c1DataBoxes : VideoBoxes :=
  ((VideoSegmentStream.flush c1State1).2.filterMap (fun e =>
    match e with
    | .data _ bx => some bx
    | _ => none)).getD 0 ⟨⟨0, VideoTrack.initial⟩, []⟩

theorem videoSegmentStream_keyframe_first_witness :
    firstAccessUnitHasIdr c1DataBoxes.mdatNals = true :=
  videoSegmentStream_keyframe_first c1State1 (by decide) (by decide) (by decide) (by decide)
    c1DataTrack c1DataBoxes (by decide)

/-! ### CoalesceStream (`src/lib/mp4/transmuxer/coalesceStream.js`) -/

inductive TrackType where
  | audio
  | video
deriving Repr, DecidableEq

/-- The slice of a segment-stream track object the coalescer reads. -/
structure CSTrack where
  type : TrackType
  pid : Nat
  timelineStartPts : Int
deriving Repr, DecidableEq

structure Caption where
  startPts : Int
  endPts : Int
  text : List Byte
deriving Repr, DecidableEq

structure Id3 where
  pts : Int
  frames : List Byte
deriving Repr, DecidableEq

/-- The combined data event (`codec`, built by the external `probe`, is out
of scope; `mp4.initSegment(tracks)` is modelled by the track list it
covers, the box writer being external). -/
structure CSDataEvent where
  initSegment : List CSTrack
  data : List Byte
  type : TrackType
  pid : Option Nat
deriving Repr, DecidableEq

inductive CSEvent where
  | data (e : CSDataEvent)
  | caption (c : Caption) (startTime stopTime : Int)
  | id3Frame (m : Id3) (cueTime : Int)
  | done
deriving Repr, DecidableEq

inductive CSInput where
  | text (c : Caption)
  | id3 (m : Id3)
  | trackOutput (track : CSTrack) (boxes : List Byte)

inductive FlushSource where
  | videoSegmentStream
  | audioSegmentStream
  | other
deriving Repr, DecidableEq

structure CSState where
  remuxTracks : Bool
  keepOriginalTimestamps : Bool
  trackIds : List (TrackType × Nat)
  videoTrack : Option CSTrack
  audioTracksByPid : List (Nat × CSTrack)
  pendingCaptions : List Caption
  pendingMetadata : List Id3
  emittedTracks : Nat
  trackData : List (CSTrack × List Byte)
  bufferedTrackIds : List Nat
  currentAudioPid : Option Nat
deriving Repr, DecidableEq

def CSState.initial : CSState :=
  { remuxTracks := true, keepOriginalTimestamps := false, trackIds := [],
    videoTrack := none, audioTracksByPid := [], pendingCaptions := [],
    pendingMetadata := [], emittedTracks := 0, trackData := [],
    bufferedTrackIds := [], currentAudioPid := none }

/-- A JS `Set.add`: append when absent (`size` is then the list length). -/
def setAdd {α : Type} [DecidableEq α] (s : List α) (x : α) : List α :=
  if x ∈ s then s else s ++ [x]

/-- Assignment into the pid-keyed JS object: integer keys iterate in
ascending order, so the association list is kept sorted by pid. -/
def pidMapSet (m : List (Nat × CSTrack)) (pid : Nat) (t : CSTrack) :
    List (Nat × CSTrack) :=
  match m with
  | [] => [(pid, t)]
  | (p, x) :: rest =>
    if pid < p then (pid, t) :: (p, x) :: rest
    else if pid = p then (pid, t) :: rest
    else (p, x) :: pidMapSet rest pid t

def pidMapGet (m : List (Nat × CSTrack)) (pid : Nat) : Option CSTrack :=
  match m with
  | [] => none
  | (p, t) :: rest => if p = pid then some t else pidMapGet rest pid

def CoalesceStream.push (st : CSState) (out : CSInput) : CSState :=
  match out with
  | .text c => { st with pendingCaptions := st.pendingCaptions ++ [c] }
  | .id3 m => { st with pendingMetadata := st.pendingMetadata ++ [m] }
  | .trackOutput track boxes =>
    let st1 := { st with
      trackData := st.trackData ++ [(track, boxes)],
      bufferedTrackIds := setAdd st.bufferedTrackIds track.pid }
    let st2 := if track.type = TrackType.video then
      { st1 with videoTrack := some track } else st1
    if track.type = TrackType.audio then
      { st2 with audioTracksByPid := pidMapSet st2.audioTracksByPid track.pid track }
    else st2

/-- `addTrack`: register `${type}-${pid}`; for audio keep the smallest pid
(the JS truthiness test means a current pid of 0 is simply replaced). -/
def CoalesceStream.addTrack (st : CSState) (type : TrackType) (pid : Nat) : CSState :=
  let st1 := { st with trackIds := setAdd st.trackIds (type, pid) }
  if type = TrackType.audio then
    { st1 with currentAudioPid := some (match st1.currentAudioPid with
      | some p => if p ≠ 0 then min p pid else pid
      | none => pid) }
  else st1

def CoalesceStream.setRemux (st : CSState) (val : Bool) : CSState :=
  { st with remuxTracks := val }

/-- `groupSendTracks`: build the combined event from the current audio pid's
track and the video track, keeping only the matching buffered track data. -/
def groupSendTracks (st : CSState) : Except String (CSState × CSEvent) :=
  let audio := match st.currentAudioPid with
    | some p => pidMapGet st.audioTracksByPid p
    | none => none
  let tracks := (match audio with | some a => [a] | none => []) ++
    (match st.videoTrack with | some v => [v] | none => [])
  if tracks.length = 0 then Except.error "No track to merge, something is wrong."
  else
    let kept := st.trackData.filter (fun td =>
      td.1.type == TrackType.video ||
        (td.1.type == TrackType.audio && st.currentAudioPid == some td.1.pid))
    let bytes : Nat := (kept.map (fun td => td.2.length)).sum
    if bytes = 0 then Except.error "No bytes buffered, something is wrong."
    else
      let data := (kept.map (fun td => td.2)).flatten
      let type := match st.videoTrack with
        | some _ => TrackType.video
        | none => TrackType.audio
      Except.ok ({ st with emittedTracks := st.trackIds.length },
        CSEvent.data ⟨tracks, data, type, st.currentAudioPid⟩)

/-- Modelled from the spec: `clock.metadataTsToSeconds` is not under `src/`;
the 90 kHz offset is kept (the division by 90000 into seconds is a unit
change out of scope): `keepOriginalTimestamps ? ts : ts - timelineStartPts`. -/
def metadataPtsOffset (ts timelineStartPts : Int) (keep : Bool) : Int :=
  if keep then ts else ts - timelineStartPts

/-- The body of `flush` past the early-return block. -/
def coalesceFlushTail (st : CSState) : Except String (CSState × List CSEvent) :=
  let audioTracks := st.audioTracksByPid.map (fun q => q.2)
  let timelineStartPts : Int :=
    match st.videoTrack with
    | some v => v.timelineStartPts
    | none =>
      match audioTracks with
      | a :: _ => a.timelineStartPts
      | [] => 0
  if st.trackData.length ≠ 0 then
    match groupSendTracks st with
    | Except.error e => Except.error e
    | Except.ok (st1, dataEvent) =>
      let st2 := { st1 with
        trackData := [], bufferedTrackIds := [],
        videoTrack := none, audioTracksByPid := [] }
      let captionEvents := st2.pendingCaptions.map (fun c =>
        CSEvent.caption c (metadataPtsOffset c.startPts timelineStartPts st.keepOriginalTimestamps)
          (metadataPtsOffset c.endPts timelineStartPts st.keepOriginalTimestamps))
      let id3Events := st2.pendingMetadata.map (fun m =>
        CSEvent.id3Frame m (metadataPtsOffset m.pts timelineStartPts st.keepOriginalTimestamps))
      let st3 := { st2 with pendingCaptions := [], pendingMetadata := [] }
      if st3.emittedTracks ≥ st3.trackIds.length then
        Except.ok ({ st3 with emittedTracks := 0 },
          dataEvent :: captionEvents ++ id3Events ++ [CSEvent.done])
      else
        Except.ok (st3, dataEvent :: captionEvents ++ id3Events)
  else
    if st.emittedTracks ≥ st.trackIds.length then
      Except.ok ({ st with emittedTracks := 0 }, [CSEvent.done])
    else Except.ok (st, [])

def CoalesceStream.flush (st : CSState) (flushSource : FlushSource) :
    Except String (CSState × List CSEvent) :=
  if st.bufferedTrackIds.length < st.trackIds.length then
    if flushSource ≠ FlushSource.videoSegmentStream ∧
        flushSource ≠ FlushSource.audioSegmentStream then
      Except.ok (st, [])
    else if st.remuxTracks then Except.ok (st, [])
    else if st.trackData.length = 0 then
      if st.emittedTracks + 1 ≥ st.trackIds.length then
        Except.ok ({ st with emittedTracks := 0 }, [CSEvent.done])
      else
        Except.ok ({ st with emittedTracks := st.emittedTracks + 1 }, [])
    else coalesceFlushTail st
  else coalesceFlushTail st

/-- The stream state after a combined emission: buffers cleared and the
done counter reset. -/
def coalesceResetState (st : CSState) : CSState :=
  { st with
    trackData := [], bufferedTrackIds := [], videoTrack := none,
    audioTracksByPid := [], pendingCaptions := [], pendingMetadata := [],
    emittedTracks := 0 }

theorem nodup_subset_length (l₁ l₂ : List Nat) (h₁ : l₁.Nodup)
    (hsub : ∀ x ∈ l₁, x ∈ l₂) : l₁.length ≤ l₂.length := by
  induction l₁ generalizing l₂ with
  | nil => simp
  | cons a l ih =>
    rw [List.nodup_cons] at h₁
    have ha : a ∈ l₂ := hsub a (List.mem_cons_self a l)
    have hsub2 : ∀ x ∈ l, x ∈ l₂.erase a := by
      intro x hx
      have hxa : x ≠ a := fun h => h₁.1 (h ▸ hx)
      exact (List.mem_erase_of_ne hxa).mpr (hsub x (List.mem_cons_of_mem a hx))
    have h2 := ih (l₂.erase a) h₁.2 hsub2
    have h3 : (l₂.erase a).length = l₂.length - 1 := List.length_erase_of_mem ha
    have h4 : 0 < l₂.length := List.length_pos_of_mem ha
    simp only [List.length_cons]
    omega

/-- `groupSendTracks` on a state where video and the selected audio are both
present and the buffered track data is video entries then selected-audio
entries. -/
theorem groupSendTracks_combined (st : CSState) (vt : CSTrack) (apid : Nat)
    (atrack : CSTrack) (vids auds : List (CSTrack × List Byte))
    (hvt : st.videoTrack = some vt)
    (hapid : st.currentAudioPid = some apid)
    (haud : pidMapGet st.audioTracksByPid apid = some atrack)
    (htd : st.trackData = vids ++ auds)
    (hvids : ∀ td ∈ vids, td.1.type = TrackType.video)
    (hauds : ∀ td ∈ auds, td.1.type = TrackType.audio ∧ td.1.pid = apid)
    (hbytes : 0 < ((vids ++ auds).map (fun td => td.2.length)).sum) :
    groupSendTracks st = Except.ok ({ st with emittedTracks := st.trackIds.length },
      CSEvent.data ⟨[atrack, vt],
        (vids.map (fun td => td.2)).flatten ++ (auds.map (fun td => td.2)).flatten,
        TrackType.video, some apid⟩) := by
  have hkeep : st.trackData.filter (fun td =>
      td.1.type == TrackType.video ||
        (td.1.type == TrackType.audio && st.currentAudioPid == some td.1.pid)) =
      vids ++ auds := by
    rw [htd, List.filter_append]
    have h1 : vids.filter (fun td =>
        td.1.type == TrackType.video ||
          (td.1.type == TrackType.audio && st.currentAudioPid == some td.1.pid)) = vids :=
      List.filter_eq_self.mpr (fun td hmem => by
        rw [hvids td hmem]
        simp)
    have h2 : auds.filter (fun td =>
        td.1.type == TrackType.video ||
          (td.1.type == TrackType.audio && st.currentAudioPid == some td.1.pid)) = auds :=
      List.filter_eq_self.mpr (fun td hmem => by
        obtain ⟨hty, hpid⟩ := hauds td hmem
        rw [hty, hapid, hpid]
        simp)
    rw [h1, h2]
  unfold groupSendTracks
  dsimp only
  rw [hkeep]
  simp only [hapid, hvt, haud]
  rw [if_neg (by simp)]
  rw [if_neg (by omega)]
  simp [List.map_append, List.flatten_append]

/-- C4: with `remux` enabled, while some registered track has not yet
contributed to the buffered track data, every flush returns without emitting
anything; once every registered track has contributed (video present, an
audio track selected, bytes buffered, no pending captions or id3 tags), the
flush emits exactly one combined data event — one init segment covering the
selected audio track and the video track, its data the video boxes followed
by the selected audio pid's boxes (the arrival order the pipeline fixes by
piping video before audio) — followed by `done`, and the buffers reset. -/
theorem coalesceStream_remux_combined (st : CSState) (src : FlushSource)
    (hremux : st.remuxTracks = true)
    (hnodupB : st.bufferedTrackIds.Nodup)
    (hnodupT : (st.trackIds.map (fun q => q.2)).Nodup)
    (hsub : ∀ p ∈ st.bufferedTrackIds, p ∈ st.trackIds.map (fun q => q.2)) :
    ((∃ q ∈ st.trackIds, q.2 ∉ st.bufferedTrackIds) →
      CoalesceStream.flush st src = Except.ok (st, [])) ∧
    (∀ vt apid atrack vids auds,
      st.videoTrack = some vt →
      st.currentAudioPid = some apid →
      pidMapGet st.audioTracksByPid apid = some atrack →
      st.trackData = vids ++ auds →
      (∀ td ∈ vids, td.1.type = TrackType.video) →
      (∀ td ∈ auds, td.1.type = TrackType.audio ∧ td.1.pid = apid) →
      (∀ q ∈ st.trackIds, q.2 ∈ st.bufferedTrackIds) →
      0 < ((vids ++ auds).map (fun td => td.2.length)).sum →
      st.pendingCaptions = [] →
      st.pendingMetadata = [] →
      CoalesceStream.flush st src =
        Except.ok (coalesceResetState st,
          [CSEvent.data ⟨[atrack, vt],
            (vids.map (fun td => td.2)).flatten ++ (auds.map (fun td => td.2)).flatten,
            TrackType.video, some apid⟩, CSEvent.done])) := by
  constructor
  · rintro ⟨q, hq, hqnot⟩
    have hlt : st.bufferedTrackIds.length < st.trackIds.length := by
      have hsub2 : ∀ p ∈ st.bufferedTrackIds,
          p ∈ (st.trackIds.map (fun r => r.2)).erase q.2 := by
        intro p hp
        have hne : p ≠ q.2 := fun h => hqnot (h ▸ hp)
        exact (List.mem_erase_of_ne hne).mpr (hsub p hp)
      have h1 := nodup_subset_length _ _ hnodupB hsub2
      have hqm : q.2 ∈ st.trackIds.map (fun r => r.2) := List.mem_map_of_mem _ hq
      have h2 := List.length_erase_of_mem hqm
      have h3 := List.length_pos_of_mem hqm
      have h4 : (st.trackIds.map (fun r => r.2)).length = st.trackIds.length :=
        List.length_map _ _
      omega
    unfold CoalesceStream.flush
    rw [if_pos hlt]
    by_cases hsrc : src ≠ FlushSource.videoSegmentStream ∧
        src ≠ FlushSource.audioSegmentStream
    · rw [if_pos hsrc]
    · rw [if_neg hsrc, if_pos hremux]
  · intro vt apid atrack vids auds hvt hapid haud htd hvids hauds hall hbytes hpc hpm
    have hge : ¬ st.bufferedTrackIds.length < st.trackIds.length := by
      have hsub2 : ∀ p ∈ st.trackIds.map (fun r => r.2), p ∈ st.bufferedTrackIds := by
        intro p hp
        obtain ⟨r, hr, hrp⟩ := List.mem_map.mp hp
        subst hrp
        exact hall r hr
      have h1 := nodup_subset_length _ _ hnodupT hsub2
      have h4 : (st.trackIds.map (fun r => r.2)).length = st.trackIds.length :=
        List.length_map _ _
      omega
    have hgst := groupSendTracks_combined st vt apid atrack vids auds hvt hapid haud htd
      hvids hauds hbytes
    have htdne : st.trackData.length ≠ 0 := by
      rw [htd]
      intro h0
      rw [List.length_eq_zero] at h0
      rcases List.append_eq_nil.mp h0 with ⟨h0a, h0b⟩
      rw [h0a, h0b] at hbytes
      simp at hbytes
    unfold CoalesceStream.flush
    rw [if_neg hge]
    unfold coalesceFlushTail
    dsimp only
    rw [if_pos htdne]
    simp [hgst, hpc, hpm, coalesceResetState]

def c4VTrack : CSTrack := ⟨TrackType.video, 256, 0⟩

def c4ATrack : CSTrack := ⟨TrackType.audio, 257, 0⟩

/-- Video registered and contributed, audio registered but not yet. -/
def c4StateMid : CSState :=
  CoalesceStream.push
    (CoalesceStream.addTrack (CoalesceStream.addTrack CSState.initial TrackType.video 256)
      TrackType.audio 257)
    (CSInput.trackOutput c4VTrack [1, 2, 3])

/-- Both registered tracks have contributed. -/
def c4StateFull : CSState :=
  CoalesceStream.push c4StateMid (CSInput.trackOutput c4ATrack [4, 5])

theorem coalesceStream_remux_combined_witness :
    CoalesceStream.flush c4StateMid FlushSource.audioSegmentStream =
      Except.ok (c4StateMid, []) ∧
    CoalesceStream.flush c4StateFull FlushSource.audioSegmentStream =
      Except.ok (coalesceResetState c4StateFull,
        [CSEvent.data ⟨[c4ATrack, c4VTrack], [1, 2, 3, 4, 5], TrackType.video, some 257⟩,
          CSEvent.done]) :=
  ⟨(coalesceStream_remux_combined c4StateMid FlushSource.audioSegmentStream (by decide)
      (by decide) (by decide) (by decide)).1 (by decide),
    (coalesceStream_remux_combined c4StateFull FlushSource.audioSegmentStream (by decide)
      (by decide) (by decide) (by decide)).2 c4VTrack 257 c4ATrack
      [(c4VTrack, [1, 2, 3])] [(c4ATrack, [4, 5])] (by decide) (by decide) (by decide)
      (by decide) (by decide) (by decide) (by decide) (by decide) (by decide) (by decide)⟩

end MuxJs
